import Mathlib

/-!
# HttpBuildgo: a raw-TCP HTTP/1.1 server (`http.go`)

A shallow embedding of the request parser and response writer of `http.go`,
followed by theorems about them.

Go strings and byte slices are sequences of bytes; here a byte is a natural
number and a string is a `List Nat`.  Every theorem below holds for all lists,
in particular for the ones whose entries are below 256.  The connection is the
list of bytes still to be read; when the list is exhausted the next read yields
`io.EOF`.  The functions of the Go standard library that `http.go` calls
(`strings.Fields`, `strings.TrimSpace`, `strings.ToLower`, `strings.TrimRight`,
`strings.Index`, `strconv.Atoi`, `bufio.Reader.ReadString`, `io.ReadFull`) are
embedded by what they compute, UTF-8 decoding included.  The allocation
`make([]byte, n)` succeeds up to a limit that is a parameter of the embedding and
panics above it; a handler that panics has written nothing.
-/

namespace HttpBuildgo

/-- A Go `string` or `[]byte`: a sequence of bytes. -/
abbrev Str := List Nat

/-! ## Package `unicode/utf8` -/

/-- The constant `utf8.RuneError`, U+FFFD. -/
def RuneError : Nat := 0xFFFD

/-- The test `locb <= b && b <= hicb` of package `utf8`: a continuation byte. -/
def isCont (b : Nat) : Bool := 0x80 ≤ b && b ≤ 0xBF

/-- The entry of the table `first` of package `utf8` for a lead byte, as
`some (size, lo, hi)`: the length of the sequence and the range accepted for
its second byte.  `none` for an ASCII byte (table entry `as`) and for an
invalid lead byte (table entry `xx`). -/
def first (b : Nat) : Option (Nat × Nat × Nat) :=
  if 0xC2 ≤ b ∧ b ≤ 0xDF then some (2, 0x80, 0xBF)
  else if b = 0xE0 then some (3, 0xA0, 0xBF)
  else if 0xE1 ≤ b ∧ b ≤ 0xEC then some (3, 0x80, 0xBF)
  else if b = 0xED then some (3, 0x80, 0x9F)
  else if 0xEE ≤ b ∧ b ≤ 0xEF then some (3, 0x80, 0xBF)
  else if b = 0xF0 then some (4, 0x90, 0xBF)
  else if 0xF1 ≤ b ∧ b ≤ 0xF3 then some (4, 0x80, 0xBF)
  else if b = 0xF4 then some (4, 0x80, 0x8F)
  else none

/-- The function `utf8.DecodeRuneInString` on a non-empty string `b :: t`: the
rune at the front and its width in bytes.  An invalid or incomplete sequence
decodes to `(RuneError, 1)`. -/
def decodeRune (b : Nat) (t : Str) : Nat × Nat :=
  if b < 0x80 then (b, 1)
  else
    match first b with
    | none => (RuneError, 1)
    | some (sz, lo, hi) =>
      match t with
      | [] => (RuneError, 1)
      | s1 :: t1 =>
        if s1 < lo ∨ hi < s1 then (RuneError, 1)
        else if sz ≤ 2 then ((b % 0x20) * 0x40 + s1 % 0x40, 2)
        else
          match t1 with
          | [] => (RuneError, 1)
          | s2 :: t2 =>
            if !isCont s2 then (RuneError, 1)
            else if sz ≤ 3 then ((b % 0x10) * 0x1000 + (s1 % 0x40) * 0x40 + s2 % 0x40, 3)
            else
              match t2 with
              | [] => (RuneError, 1)
              | s3 :: _ =>
                if !isCont s3 then (RuneError, 1)
                else ((b % 0x08) * 0x40000 + (s1 % 0x40) * 0x1000 + (s2 % 0x40) * 0x40
                        + s3 % 0x40, 4)

/-- The runes of a string with the bytes each one occupies, in the order of a
Go `for i, r := range s` loop.  The second argument counts the bytes of the
current rune that are still to be skipped (0 at the start of a rune). -/
def runeSpans : Str → Nat → List (Nat × Str)
  | [], _ => []
  | b :: t, 0 =>
    ((decodeRune b t).1, (b :: t).take (decodeRune b t).2) :: runeSpans t ((decodeRune b t).2 - 1)
  | _ :: t, k + 1 => runeSpans t k

/-- The function `utf8.DecodeLastRuneInString` on a non-empty string given in
reverse (`b` is its last byte): the last rune and its width in bytes. -/
def decodeLastRune (b : Nat) (before : Str) : Nat × Nat :=
  if b < 0x80 then (b, 1)
  else
    match before with
    | [] => (RuneError, 1)
    | r1 :: before1 =>
      if !isCont r1 then
        (if (decodeRune r1 [b]).2 = 2 then decodeRune r1 [b] else (RuneError, 1))
      else
        match before1 with
        | [] => (RuneError, 1)
        | r2 :: before2 =>
          if !isCont r2 then
            (if (decodeRune r2 [r1, b]).2 = 3 then decodeRune r2 [r1, b] else (RuneError, 1))
          else
            match before2 with
            | [] => (RuneError, 1)
            | r3 :: _ =>
              if !isCont r3 then
                (if (decodeRune r3 [r2, r1, b]).2 = 4 then decodeRune r3 [r2, r1, b]
                 else (RuneError, 1))
              else (RuneError, 1)

/-- The function `utf8.AppendRune`: the UTF-8 encoding of a rune; a surrogate
or a value above U+10FFFF is encoded as `RuneError`. -/
def encodeRune (r : Nat) : Str :=
  if r < 0x80 then [r]
  else if r < 0x800 then [0xC0 + r / 0x40, 0x80 + r % 0x40]
  else if (0xD800 ≤ r ∧ r ≤ 0xDFFF) ∨ 0x10FFFF < r then [0xEF, 0xBF, 0xBD]
  else if r < 0x10000 then [0xE0 + r / 0x1000, 0x80 + (r / 0x40) % 0x40, 0x80 + r % 0x40]
  else [0xF0 + r / 0x40000, 0x80 + (r / 0x1000) % 0x40, 0x80 + (r / 0x40) % 0x40,
        0x80 + r % 0x40]

/-! ## Package `unicode` -/

/-- The function `unicode.IsSpace`: the Unicode White_Space property. -/
def isSpace (r : Nat) : Bool :=
  (0x09 ≤ r && r ≤ 0x0D) || r = 0x20 || r = 0x85 || r = 0xA0 || r = 0x1680
    || (0x2000 ≤ r && r ≤ 0x200A) || r = 0x2028 || r = 0x2029 || r = 0x202F
    || r = 0x205F || r = 0x3000

/-- The function `unicode.ToLower`.  A rune up to `MaxASCII` is handled in the
function itself; any other rune is looked up in the table `unicode.CaseRanges`,
which is not part of this repository and is the parameter `caseTable`. -/
def unicodeToLower (caseTable : Nat → Nat) (r : Nat) : Nat :=
  if r ≤ 0x7F then (if 0x41 ≤ r ∧ r ≤ 0x5A then r + 0x20 else r)
  else caseTable r

/-! ## Package `strings` -/

/-- The loop of `strings.FieldsFunc` over the runes of the string, each one
tagged with whether it is a separator.  The second argument is the field being
read (`start >= 0` in the Go code), if any. -/
def fieldsLoop : List (Bool × Str) → Option Str → List Str
  | [], none => []
  | [], some cur => [cur]
  | (true, _) :: rest, none => fieldsLoop rest none
  | (true, _) :: rest, some cur => cur :: fieldsLoop rest none
  | (false, bs) :: rest, none => fieldsLoop rest (some bs)
  | (false, bs) :: rest, some cur => fieldsLoop rest (some (cur ++ bs))

/-- The function `strings.Fields`: the maximal runs of non-white-space runes of
`s`, white space being what `unicode.IsSpace` accepts. -/
def Fields (s : Str) : List Str :=
  fieldsLoop ((runeSpans s 0).map fun p => (isSpace p.1, p.2)) none

/-- The function `strings.TrimLeftFunc(s, unicode.IsSpace)`.  The second
argument counts the bytes of a white-space rune still to be dropped. -/
def trimLeftSpace : Str → Nat → Str
  | [], _ => []
  | b :: t, 0 =>
    if isSpace (decodeRune b t).1 then trimLeftSpace t ((decodeRune b t).2 - 1) else b :: t
  | _ :: t, k + 1 => trimLeftSpace t k

/-- The function `strings.TrimRightFunc(s, unicode.IsSpace)` on the reversed
string; the result is reversed too. -/
def trimRightSpaceRev : Str → Nat → Str
  | [], _ => []
  | b :: t, 0 =>
    if isSpace (decodeLastRune b t).1 then trimRightSpaceRev t ((decodeLastRune b t).2 - 1)
    else b :: t
  | _ :: t, k + 1 => trimRightSpaceRev t k

/-- The function `strings.TrimSpace`: `s` without its leading and trailing
white space, as defined by Unicode. -/
def TrimSpace (s : Str) : Str :=
  (trimRightSpaceRev (trimLeftSpace s 0).reverse 0).reverse

/-- The function `strings.ToLower`, which is `strings.Map(unicode.ToLower, s)`:
every rune of `s` is replaced by the encoding of its lower case, a byte that is
not valid UTF-8 counting as the rune `RuneError`. -/
def ToLower (caseTable : Nat → Nat) (s : Str) : Str :=
  ((runeSpans s 0).map fun p => encodeRune (unicodeToLower caseTable p.1)).flatten

/-- The function `strings.TrimRight(s, cutset)` for a cutset of ASCII bytes: `s`
without its trailing bytes that belong to `cutset`. -/
def TrimRight (s : Str) (cutset : Str) : Str :=
  (s.reverse.dropWhile fun b => cutset.contains b).reverse

/-- The function `strings.Index(s, ":")`: the index of the first byte `:` of
`s`, or `-1` if there is none. -/
def Index : Str → Nat → Int
  | [], _ => -1
  | b :: t, sep => if b = sep then 0 else if Index t sep < 0 then -1 else Index t sep + 1

/-! ## Packages `bufio`, `io`, `strconv` and `fmt` -/

/-- The errors the helpers return. -/
inductive Err where
  /-- The error `io.EOF`. -/
  | EOF
  /-- The error `io.ErrUnexpectedEOF`. -/
  | ErrUnexpectedEOF
  /-- The error `fmt.Errorf("invalid start line")`. -/
  | invalidStartLine
  /-- The error `strconv.ErrSyntax`. -/
  | ErrSyntax
  /-- The error `strconv.ErrRange`. -/
  | ErrRange
  deriving DecidableEq, Repr

deriving instance DecidableEq for Except

/-- The search of `bufio.Reader.ReadString` for the delimiter: the text up to
and including its first occurrence, and the rest of the stream; `none` when the
stream holds no delimiter. -/
def splitDelim (delim : Nat) : Str → Option (Str × Str)
  | [] => none
  | b :: t =>
    if b = delim then some ([b], t)
    else
      match splitDelim delim t with
      | none => none
      | some (l, rest) => some (b :: l, rest)

/-- The method `bufio.Reader.ReadString`: the text read, the error, and the
stream left.  When the stream ends before the delimiter, everything that was
left is returned together with `io.EOF`. -/
def ReadString (r : Str) (delim : Nat) : Str × Option Err × Str :=
  match splitDelim delim r with
  | some (l, rest) => (l, none, rest)
  | none => (r, some Err.EOF, [])

/-- The function `io.ReadFull` into a buffer of `n` bytes: the bytes read and
the stream left, or `io.EOF` when no byte could be read and
`io.ErrUnexpectedEOF` when only some could. -/
def ReadFull (r : Str) (n : Nat) : Except Err (Str × Str) :=
  if n ≤ r.length then .ok (r.take n, r.drop n)
  else if r = [] then .error Err.EOF
  else .error Err.ErrUnexpectedEOF

/-- The digit loop of `strconv.ParseUint(s, 10, 64)`: a byte that is not a
decimal digit is a syntax error, a value above `1<<64 - 1` a range error. -/
def parseUintLoop : Str → Nat → Except Err Nat
  | [], n => .ok n
  | c :: t, n =>
    if 0x30 ≤ c ∧ c ≤ 0x39 then
      (if n * 10 + (c - 0x30) ≤ 2 ^ 64 - 1 then parseUintLoop t (n * 10 + (c - 0x30))
       else .error Err.ErrRange)
    else .error Err.ErrSyntax

/-- The function `strconv.ParseUint(s, 10, 64)`. -/
def ParseUint (s : Str) : Except Err Nat :=
  if s = [] then .error Err.ErrSyntax else parseUintLoop s 0

/-- The function `strconv.Atoi` where `int` has 64 bits: an optional sign
followed by decimal digits, the value within the range of `int`. -/
def Atoi (s : Str) : Except Err Int :=
  match s with
  | [] => .error Err.ErrSyntax
  | c :: t =>
    if c = 0x2D then
      match ParseUint t with
      | .error e => .error e
      | .ok un => if un ≤ 2 ^ 63 then .ok (-(un : Int)) else .error Err.ErrRange
    else
      match ParseUint (if c = 0x2B then t else c :: t) with
      | .error e => .error e
      | .ok un => if un < 2 ^ 63 then .ok (un : Int) else .error Err.ErrRange

/-- The bytes of a Go string literal (Go source text is UTF-8). -/
def bytes (s : String) : Str :=
  (s.toList.map fun c => encodeRune c.toNat).flatten

/-- The verb `%d` of `fmt.Fprintf` for a non-negative integer. -/
def fmtInt (n : Nat) : Str :=
  (Nat.toDigits 10 n).map Char.toNat

/-! ## The type `map[string]string` -/

/-- A Go `map[string]string`: a list of entries with distinct keys. -/
abbrev Headers := List (Str × Str)

/-- The lookup `v, ok := m[k]`. -/
def Headers.get : Headers → Str → Option Str
  | [], _ => none
  | (k, v) :: m, key => if k = key then some v else Headers.get m key

/-- The assignment `m[k] = v`: a prior entry for `k` is replaced. -/
def Headers.set (m : Headers) (key val : Str) : Headers :=
  (key, val) :: m.filter fun p => p.1 ≠ key

/-! ## The functions of `http.go` -/

/-- The type `Request`. -/
structure Request where
  /-- The field `Method`. -/
  Method : Str
  /-- The field `Path`. -/
  Path : Str
  /-- The field `Version`. -/
  Version : Str
  /-- The field `Headers`. -/
  Headers : Headers
  /-- The field `Body`. -/
  Body : Str
  deriving DecidableEq, Repr

/-- The function `readLine`: the next line without its trailing `\r` and `\n`
bytes, and the stream left. -/
def readLine (r : Str) : Except Err (Str × Str) :=
  match ReadString r 0x0A with
  | (_, some err, _) => .error err
  | (line, none, rest) => .ok (TrimRight line [0x0D, 0x0A], rest)

/-- The function `parseStartLine`. -/
def parseStartLine (line : Str) : Except Err (Str × Str × Str) :=
  match Fields line with
  | [method, path, version] => .ok (method, path, version)
  | _ => .error Err.invalidStartLine

/-- The `for` loop of `readHeaders`, with the map built so far.  The first
argument bounds the number of iterations; `readHeaders` passes the length of
the stream, and every iteration that continues has consumed a byte.  With no
byte left `readLine` returns `io.EOF`. -/
def readHeadersLoop (caseTable : Nat → Nat) : Nat → Headers → Str → Except Err (Headers × Str)
  | 0, _, _ => .error Err.EOF
  | fuel + 1, headers, r =>
    match readLine r with
    | .error err => .error err
    | .ok (hline, rest) =>
      if hline = [] then .ok (headers, rest)
      else if Index hline 0x3A ≤ 0 then readHeadersLoop caseTable fuel headers rest
      else
        readHeadersLoop caseTable fuel
          (headers.set (ToLower caseTable (TrimSpace (hline.take (Index hline 0x3A).toNat)))
            (TrimSpace (hline.drop ((Index hline 0x3A).toNat + 1))))
          rest

/-- The function `readHeaders`: the header map, and the stream left. -/
def readHeaders (caseTable : Nat → Nat) (r : Str) : Except Err (Headers × Str) :=
  readHeadersLoop caseTable r.length [] r

/-- The function `writeResponse`: the bytes written to the connection. -/
def writeResponse (status : Nat) (statusText contentType body : Str) : Str :=
  bytes "HTTP/1.1 " ++ fmtInt status ++ bytes " " ++ statusText ++ bytes "\r\n"
    ++ (bytes "Content-Type: " ++ contentType ++ bytes "\r\n")
    ++ (bytes "Content-Length: " ++ fmtInt body.length ++ bytes "\r\n")
    ++ bytes "Connection: close\r\n"
    ++ bytes "\r\n"
    ++ body

/-- The function `writeSimpleResponse`. -/
def writeSimpleResponse (status : Nat) (statusText body : Str) : Str :=
  writeResponse status statusText (bytes "text/plain; charset=utf-8") (body ++ bytes "\n")

/-- The variable `html` of the function `home`: the document it serves. -/
def html : Str :=
  bytes ("<!doctype html>\n<html>\n"
    ++ "<head><meta charset=\"utf-8\"><title>Home</title></head>\n"
    ++ "<body>\n<h1>It works 🎉</h1>\n"
    ++ "<p>You built HTTP over TCP in Go.</p>\n"
    ++ "<p>Try <a href=\"/hello\">/hello</a> or POST to <code>/echo</code>.</p>\n"
    ++ "</body></html>")

/-- The function `home`. -/
def home (_req : Request) : Str :=
  writeResponse 200 (bytes "OK") (bytes "text/html; charset=utf-8") html

/-- The function `hello`. -/
def hello (_req : Request) : Str :=
  writeResponse 200 (bytes "OK") (bytes "text/plain; charset=utf-8")
    (bytes "Hello from raw TCP HTTP!\n")

/-- The function `echo`.  Indexing a Go map at an absent key yields `""`. -/
def echo (req : Request) : Str :=
  writeResponse 200 (bytes "OK")
    (if (req.Headers.get (bytes "content-type")).getD [] = [] then bytes "application/octet-stream"
     else (req.Headers.get (bytes "content-type")).getD [])
    req.Body

/-- The `switch` of `handleConn` that picks the handler of a request. -/
def route (req : Request) : Str :=
  if req.Method = bytes "GET" ∧ req.Path = bytes "/" then home req
  else if req.Method = bytes "GET" ∧ req.Path = bytes "/hello" then hello req
  else if req.Method = bytes "POST" ∧ req.Path = bytes "/echo" then echo req
  else writeSimpleResponse 404 (bytes "Not Found") (bytes "Route not found")

/-- How step 3 of `handleConn` ends: with the body of the request, with the
text of the 400 response that `handleConn` writes, or with the panic of
`make([]byte, cl)`. -/
inductive BodyResult where
  /-- The body was read (or there is no `content-length`). -/
  | ok (body : Str)
  /-- The request is answered with the 400 response of this text. -/
  | badRequest (msg : Str)
  /-- The call `make([]byte, cl)` panicked: the goroutine stops before any write. -/
  | panic
  deriving DecidableEq, Repr

/-- The constant `maxAlloc` of package `runtime` on linux/amd64, the platform
taken for the examples: the largest size `makeslice` accepts. -/
def maxAlloc : Nat := 2 ^ 48

/-- Step 3 of `handleConn`: the body of the request, read from the stream when
the headers hold `content-length`.  The parameter `allocLimit` is the largest
length for which `make([]byte, cl)` succeeds: at most the constant `maxAlloc` of
package `runtime`, which depends on the platform, and less where memory runs
out first.  Above it the runtime panics (`makeslice: len out of range`) or
aborts (`out of memory`) before a byte is read. -/
def readBody (allocLimit : Nat) (headers : Headers) (r : Str) : BodyResult :=
  match headers.get (bytes "content-length") with
  | none => .ok []
  | some clStr =>
    match Atoi (TrimSpace clStr) with
    | .error _ => .badRequest (bytes "Invalid Content-Length")
    | .ok cl =>
      if cl < 0 then .badRequest (bytes "Invalid Content-Length")
      else if allocLimit < cl.toNat then .panic
      else
        match ReadFull r cl.toNat with
        | .error _ => .badRequest (bytes "Could not read body")
        | .ok (body, _) => .ok body

/-- The function `handleConn`: the bytes written to the connection, given the
bytes that arrive on it.  A panic in the handler ends it with nothing
written. -/
def handleConn (caseTable : Nat → Nat) (allocLimit : Nat) (conn : Str) : Str :=
  match readLine conn with
  | .error _ => []
  | .ok (startLine, r1) =>
    if startLine = [] then []
    else
      match parseStartLine startLine with
      | .error _ => writeSimpleResponse 400 (bytes "Bad Request") (bytes "Invalid start line")
      | .ok (method, path, version) =>
        match readHeaders caseTable r1 with
        | .error _ => writeSimpleResponse 400 (bytes "Bad Request") (bytes "Invalid headers")
        | .ok (headers, r2) =>
          match readBody allocLimit headers r2 with
          | .panic => []
          | .badRequest msg => writeSimpleResponse 400 (bytes "Bad Request") msg
          | .ok body =>
            route { Method := method, Path := path, Version := version,
                    Headers := headers, Body := body }

/-! ## Vocabulary of the specification -/

/-- The fields of a line in the words of the specification: the runes of the
line are split at every white-space rune, and the empty pieces, which a run of
several white-space runes or white space at either end leaves, are dropped. -/
def whitespaceFields (line : Str) : List Str :=
  (((runeSpans line 0).splitOnP fun p => isSpace p.1).filter fun seg => !seg.isEmpty).map
    fun seg => (seg.map Prod.snd).flatten

/-- Whether a string holds a white-space rune. -/
def containsSpace (s : Str) : Bool :=
  (runeSpans s 0).any fun p => isSpace p.1

/-- A header line that `readHeaders` stores: it is not empty and its first `:`
is at an index greater than 0. -/
def wellFormed (line : Str) : Bool :=
  match line with
  | [] => false
  | b :: t => b ≠ 0x3A && t.contains 0x3A

/-- The text of a line before its first `:`. -/
def beforeColon (line : Str) : Str :=
  line.takeWhile fun b => b ≠ 0x3A

/-- The text of a line after its first `:`. -/
def afterColon (line : Str) : Str :=
  (line.dropWhile fun b => b ≠ 0x3A).drop 1

/-- The name under which a well-formed line is stored: the text before the first
colon, trimmed of surrounding white space and lower-cased. -/
def headerName (caseTable : Nat → Nat) (line : Str) : Str :=
  ToLower caseTable (TrimSpace (beforeColon line))

/-- The value a well-formed line stores: the text after the first colon, trimmed
of surrounding white space. -/
def headerValue (line : Str) : Str :=
  TrimSpace (afterColon line)

/-- The effect of one line on the header map: a well-formed line stores its
entry, any other line stores nothing. -/
def storeLine (caseTable : Nat → Nat) (m : Headers) (line : Str) : Headers :=
  if wellFormed line then m.set (headerName caseTable line) (headerValue line) else m

/-- The line `readLine` returns for the text `raw` followed by `\n`. -/
def lineOf (raw : Str) : Str :=
  TrimRight raw [0x0D, 0x0A]

/-- The stream text of a sequence of lines, each one followed by `\n`. -/
def block (raws : List Str) : Str :=
  (raws.map fun raw => raw ++ [0x0A]).flatten

/-- The number that a string of decimal digits denotes. -/
def decimalValue (s : Str) : Nat :=
  s.foldl (fun acc d => acc * 10 + (d - 0x30)) 0

/-- Whether `s` is the decimal numeral of `n`: ASCII digits only, at least one,
no leading zero except for the numeral `0`, and the value `n`. -/
def isDecimal (s : Str) (n : Nat) : Bool :=
  (s.all fun d => 0x30 ≤ d && d ≤ 0x39) && !s.isEmpty
    && (s.head? != some 0x30 || s == [0x30]) && decimalValue s == n

/-- A response cut at its first blank line, the first `\r\n\r\n`: the text before
it and the text after it; `none` when there is no blank line. -/
def splitBlankLine : Str → Option (Str × Str)
  | [] => none
  | b :: t =>
    if (b :: t).take 4 = [0x0D, 0x0A, 0x0D, 0x0A] then some ([], (b :: t).drop 4)
    else
      match splitBlankLine t with
      | none => none
      | some (before, after) => some (b :: before, after)

/-- The lines of a header part: the pieces between the occurrences of
`\r\n`. -/
def splitCRLF : Str → List Str
  | [] => [[]]
  | [b] => [[b]]
  | b :: c :: t =>
    if b = 0x0D ∧ c = 0x0A then [] :: splitCRLF t
    else
      match splitCRLF (c :: t) with
      | [] => [[b]]
      | l :: ls => (b :: l) :: ls

/-- Whether `out` is one complete response: the output of `writeResponse` for
a status 200, 400 or 404, whose first blank line is followed by the body and
whose header part has the line `Content-Length: n`, where `n` is the decimal
numeral of the number of bytes of the body. -/
def isCompleteResponse (out : Str) : Prop :=
  ∃ status statusText contentType body hdr n,
    (status = 200 ∨ status = 400 ∨ status = 404)
    ∧ out = writeResponse status statusText contentType body
    ∧ splitBlankLine out = some (hdr, body)
    ∧ bytes "Content-Length: " ++ n ∈ splitCRLF hdr
    ∧ isDecimal n body.length = true

/-- The rune that `utf8.AppendRune` writes for `r`: `r` itself, or `RuneError`
when `r` is a surrogate or above U+10FFFF. -/
def writtenRune (r : Nat) : Nat :=
  if (0xD800 ≤ r ∧ r ≤ 0xDFFF) ∨ 0x10FFFF < r then RuneError else r

/-- A sample of the lower-case mapping of `unicode.CaseRanges`: the upper-case
letters of Latin-1, and the Kelvin sign, whose lower case is the ASCII `k`. -/
def sampleCaseTable (r : Nat) : Nat :=
  if 0xC0 ≤ r ∧ r ≤ 0xDE ∧ r ≠ 0xD7 then r + 0x20
  else if r = 0x212A then 0x6B
  else r

/-! ## UTF-8 decoding -/

theorem decodeRune_size_pos (b : Nat) (t : Str) : 1 ≤ (decodeRune b t).2 := by
  unfold decodeRune
  repeat (first | split | simp)

theorem decodeRune_size_le (b : Nat) (t : Str) : (decodeRune b t).2 ≤ t.length + 1 := by
  unfold decodeRune
  repeat (first | split | simp)

theorem first_range (b sz lo hi : Nat) (h : first b = some (sz, lo, hi)) :
    0x80 ≤ lo ∧ hi ≤ 0xBF ∧ 2 ≤ sz ∧ sz ≤ 4 := by
  unfold first at h
  repeat (first | split at h | simp at h | omega)

theorem isCont_false_iff (c : Nat) : isCont c = false ↔ (c < 0x80 ∨ 0xBF < c) := by
  simp [isCont]; omega

theorem decodeRune_append (b c : Nat) (t rest : Str) (hc : isCont c = false) :
    decodeRune b (t ++ c :: rest) = decodeRune b t := by
  have hc2 := (isCont_false_iff c).1 hc
  unfold decodeRune
  split
  · rfl
  · cases hf : first b with
    | none => rfl
    | some v =>
      obtain ⟨sz, lo, hi⟩ := v
      have hr := first_range b sz lo hi hf
      have hlo : c < lo ∨ hi < c := by omega
      match t with
      | [] => simp [hlo]
      | [s1] => simp [hc]
      | [s1, s2] => simp [hc]
      | s1 :: s2 :: s3 :: t3 => simp

theorem runeSpans_cons_zero (b : Nat) (t : Str) :
    runeSpans (b :: t) 0 =
      ((decodeRune b t).1, (b :: t).take (decodeRune b t).2)
        :: runeSpans t ((decodeRune b t).2 - 1) := rfl

theorem runeSpans_cons_succ (b : Nat) (t : Str) (k : Nat) :
    runeSpans (b :: t) (k + 1) = runeSpans t k := rfl

theorem runeSpans_append (c : Nat) (rest : Str) (hc : isCont c = false) :
    ∀ (a : Str) (k : Nat), k ≤ a.length →
      runeSpans (a ++ c :: rest) k = runeSpans a k ++ runeSpans (c :: rest) 0
  | [], k, hk => by
    have : k = 0 := by simpa using hk
    subst this
    simp [runeSpans]
  | b :: t, 0, _ => by
    have h1 := decodeRune_size_le b t
    have h2 := decodeRune_size_pos b t
    have ih := runeSpans_append c rest hc t ((decodeRune b t).2 - 1) (by omega)
    rw [List.cons_append, runeSpans_cons_zero, runeSpans_cons_zero,
      decodeRune_append b c t rest hc, ih]
    have ht : List.take (decodeRune b t).2 (b :: (t ++ c :: rest))
        = List.take (decodeRune b t).2 (b :: t) := by
      rw [← List.cons_append, List.take_append_of_le_length (by simpa using h1)]
    rw [ht]
    rfl
  | b :: t, k + 1, hk => by
    have ih := runeSpans_append c rest hc t k (by simpa using hk)
    rw [List.cons_append, runeSpans_cons_succ, runeSpans_cons_succ, ih]

theorem runeSpans_flatten : ∀ (t : Str) (k : Nat),
    ((runeSpans t k).map Prod.snd).flatten = t.drop k
  | [], k => by simp [runeSpans]
  | b :: t, 0 => by
    have h2 := decodeRune_size_pos b t
    obtain ⟨n, hn⟩ : ∃ n, (decodeRune b t).2 = n + 1 := ⟨(decodeRune b t).2 - 1, by omega⟩
    simp [runeSpans, runeSpans_flatten t, hn]
  | b :: t, k + 1 => by
    simp [runeSpans, runeSpans_flatten t k]

/-! ## The start line -/

theorem fieldsLoop_run_some (rest : List (Bool × Str)) :
    ∀ (l : List (Bool × Str)) (cur : Str), (∀ x ∈ l, x.1 = false) →
      fieldsLoop (l ++ rest) (some cur) = fieldsLoop rest (some (cur ++ (l.map Prod.snd).flatten))
  | [], cur, _ => by simp
  | (true, bs) :: l, cur, h => by simpa using h (true, bs)
  | (false, bs) :: l, cur, h => by
    have ih := fieldsLoop_run_some rest l (cur ++ bs) (fun x hx => h x (by simp [hx]))
    simpa [fieldsLoop] using ih

theorem fieldsLoop_run_none (rest : List (Bool × Str)) (l : List (Bool × Str))
    (hl : l ≠ []) (h : ∀ x ∈ l, x.1 = false) :
    fieldsLoop (l ++ rest) none = fieldsLoop rest (some (l.map Prod.snd).flatten) := by
  match l, hl, h with
  | (true, bs) :: l, _, h => simpa using h (true, bs)
  | (false, bs) :: l, _, h =>
    have ih := fieldsLoop_run_some rest l bs (fun x hx => h x (by simp [hx]))
    simpa [fieldsLoop] using ih

/-- The runes of a string tagged as `Fields` tags them. -/
theorem tagged_noSpace (s : Str) (h : containsSpace s = false) :
    ∀ x ∈ (runeSpans s 0).map (fun p => (isSpace p.1, p.2)), x.1 = false := by
  intro x hx
  simp only [List.mem_map] at hx
  obtain ⟨p, hp, rfl⟩ := hx
  simp only [containsSpace, List.any_eq_false] at h
  simpa using h p hp

theorem tagged_flatten (s : Str) :
    (((runeSpans s 0).map (fun p => (isSpace p.1, p.2))).map Prod.snd).flatten = s := by
  have := runeSpans_flatten s 0
  simpa [List.map_map, Function.comp_def] using this

theorem tagged_ne_nil (s : Str) (h : s ≠ []) :
    (runeSpans s 0).map (fun p => (isSpace p.1, p.2)) ≠ [] := by
  match s, h with
  | b :: t, _ => simp [runeSpans]

theorem Fields_field_space (f rest : Str) (hf : f ≠ []) (hs : containsSpace f = false) :
    Fields (f ++ 0x20 :: rest) = f :: Fields rest := by
  unfold Fields
  rw [runeSpans_append 0x20 rest (by decide) f 0 (Nat.zero_le _), List.map_append,
    fieldsLoop_run_none _ _ (tagged_ne_nil f hf) (tagged_noSpace f hs), tagged_flatten]
  simp [runeSpans, decodeRune, isSpace, fieldsLoop]

theorem Fields_field_end (f : Str) (hf : f ≠ []) (hs : containsSpace f = false) :
    Fields f = [f] := by
  unfold Fields
  have := fieldsLoop_run_none [] _ (tagged_ne_nil f hf) (tagged_noSpace f hs)
  rw [List.append_nil, tagged_flatten] at this
  rw [this]
  rfl

theorem fieldsLoop_eq_splitOnP : ∀ (l : List (Nat × Str)) (cur : Str),
    fieldsLoop (l.map fun p => (isSpace p.1, p.2)) (some cur)
      = (cur ++ (((l.splitOnP fun p => isSpace p.1).headD []).map Prod.snd).flatten)
          :: ((((l.splitOnP fun p => isSpace p.1).tail).filter fun seg => !seg.isEmpty).map
                fun seg => (seg.map Prod.snd).flatten)
      ∧ fieldsLoop (l.map fun p => (isSpace p.1, p.2)) none
      = (((l.splitOnP fun p => isSpace p.1).filter fun seg => !seg.isEmpty).map
                fun seg => (seg.map Prod.snd).flatten)
  | [], cur => by simp [fieldsLoop, List.splitOnP_nil]
  | x :: l, cur => by
    obtain ⟨s0, ss, hS⟩ :=
      List.exists_cons_of_ne_nil (List.splitOnP_ne_nil (fun p => isSpace p.1) l)
    cases hx : isSpace x.1 with
    | true =>
      have ih := (fieldsLoop_eq_splitOnP l cur).2
      simp only [List.map_cons, hx, fieldsLoop, List.splitOnP_cons, if_true, ih]
      simp
    | false =>
      have ih1 := (fieldsLoop_eq_splitOnP l (cur ++ x.2)).1
      have ih2 := (fieldsLoop_eq_splitOnP l x.2).1
      simp only [List.map_cons, hx, fieldsLoop, List.splitOnP_cons, ih1, ih2, hS]
      simp

theorem Fields_eq_whitespaceFields (line : Str) : Fields line = whitespaceFields line :=
  (fieldsLoop_eq_splitOnP (runeSpans line 0) []).2

/-- C1: `parseStartLine` succeeds exactly when the line splits on runs of white
space into three fields; it then returns those three fields, in order and
unchanged; for any other number of fields it fails, and the error is the
invalid-start-line error. -/
theorem parseStartLine_three_fields (line : Str) :
    ((∃ res, parseStartLine line = .ok res) ↔ (whitespaceFields line).length = 3) ∧
    (∀ method path version, parseStartLine line = .ok (method, path, version)
        ↔ whitespaceFields line = [method, path, version]) ∧
    (parseStartLine line = .error Err.invalidStartLine ↔ (whitespaceFields line).length ≠ 3) ∧
    (∀ e, parseStartLine line = .error e
        ↔ (e = Err.invalidStartLine ∧ (whitespaceFields line).length ≠ 3)) := by
  rw [← Fields_eq_whitespaceFields]
  unfold parseStartLine
  match hF : Fields line with
  | [] => simp; exact fun e => eq_comm
  | [a] => simp; exact fun e => eq_comm
  | [a, b] => simp; exact fun e => eq_comm
  | [a, b, c] => simp
  | a :: b :: c :: d :: l => simp; exact fun e => eq_comm

/-- C2: for method, path and version that are non-empty and hold no white
space, `parseStartLine` of the three joined by single spaces returns exactly
them. -/
theorem parseStartLine_roundtrip (method path version : Str)
    (hm : method ≠ []) (hp : path ≠ []) (hv : version ≠ [])
    (hms : containsSpace method = false) (hps : containsSpace path = false)
    (hvs : containsSpace version = false) :
    parseStartLine (method ++ bytes " " ++ path ++ bytes " " ++ version)
      = .ok (method, path, version) := by
  have hsp : bytes " " = [0x20] := by decide
  have hF : Fields (method ++ bytes " " ++ path ++ bytes " " ++ version)
      = [method, path, version] := by
    have h1 := Fields_field_space method (path ++ 0x20 :: version) hm hms
    have h2 := Fields_field_space path version hp hps
    have h3 := Fields_field_end version hv hvs
    rw [hsp]
    simp only [List.append_assoc, List.singleton_append, List.cons_append, List.nil_append]
    rw [h1, h2, h3]
  unfold parseStartLine
  rw [hF]

/-- Witness of C2 on the start line `GET /hello HTTP/1.1`. -/
theorem parseStartLine_roundtrip_witness :
    parseStartLine (bytes "GET" ++ bytes " " ++ bytes "/hello" ++ bytes " " ++ bytes "HTTP/1.1")
      = .ok (bytes "GET", bytes "/hello", bytes "HTTP/1.1") :=
  parseStartLine_roundtrip (bytes "GET") (bytes "/hello") (bytes "HTTP/1.1")
    (by decide) (by decide) (by decide) (by decide) (by decide) (by decide)

/-! ## Reading lines -/

theorem splitDelim_eq_some (d : Nat) : ∀ (r l rest : Str),
    splitDelim d r = some (l, rest) → l ++ rest = r ∧ l ≠ []
  | [], l, rest, h => by simp [splitDelim] at h
  | b :: t, l, rest, h => by
    unfold splitDelim at h
    split at h
    · simp at h; obtain ⟨rfl, rfl⟩ := h; simp
    · cases hs : splitDelim d t with
      | none => simp [hs] at h
      | some v =>
        obtain ⟨l1, rest1⟩ := v
        simp [hs] at h
        obtain ⟨rfl, rfl⟩ := h
        have := splitDelim_eq_some d t l1 rest1 hs
        simp [this.1]

theorem splitDelim_append (d : Nat) (rest : Str) : ∀ (raw : Str), d ∉ raw →
    splitDelim d (raw ++ d :: rest) = some (raw ++ [d], rest)
  | [], _ => by simp [splitDelim]
  | b :: t, h => by
    have hb : b ≠ d := fun e => h (by simp [e])
    have ht : d ∉ t := fun e => h (by simp [e])
    simp [splitDelim, hb, splitDelim_append d rest t ht]

theorem splitDelim_none (d : Nat) : ∀ (r : Str), d ∉ r → splitDelim d r = none
  | [], _ => rfl
  | b :: t, h => by
    have hb : b ≠ d := fun e => h (by simp [e])
    have ht : d ∉ t := fun e => h (by simp [e])
    simp [splitDelim, hb, splitDelim_none d t ht]

theorem readLine_length (r line rest : Str) (h : readLine r = .ok (line, rest)) :
    rest.length < r.length := by
  unfold readLine ReadString at h
  cases hs : splitDelim 0x0A r with
  | none => simp [hs] at h
  | some v =>
    obtain ⟨l1, rest1⟩ := v
    simp [hs] at h
    obtain ⟨-, rfl⟩ := h
    obtain ⟨h1, h2⟩ := splitDelim_eq_some _ _ _ _ hs
    rw [← h1, List.length_append]
    have : 0 < l1.length := List.length_pos.2 h2
    omega

theorem readLine_nil : readLine [] = .error Err.EOF := rfl

theorem TrimRight_append_newline (raw : Str) :
    TrimRight (raw ++ [0x0A]) [0x0D, 0x0A] = TrimRight raw [0x0D, 0x0A] := by
  simp [TrimRight, List.dropWhile]

theorem readLine_raw (raw rest : Str) (h : 0x0A ∉ raw) :
    readLine (raw ++ 0x0A :: rest) = .ok (lineOf raw, rest) := by
  simp [readLine, ReadString, splitDelim_append 0x0A rest raw h, TrimRight_append_newline, lineOf]

theorem readLine_no_newline (r : Str) (h : 0x0A ∉ r) : readLine r = .error Err.EOF := by
  simp [readLine, ReadString, splitDelim_none 0x0A r h]

/-! ## The header loop -/

theorem Index_eq : ∀ (s : Str) (sep : Nat),
    Index s sep = if sep ∈ s then ((s.takeWhile fun b => b ≠ sep).length : Int) else -1
  | [], sep => by simp [Index]
  | b :: t, sep => by
    have ih := Index_eq t sep
    by_cases hb : b = sep
    · simp [Index, hb]
    · have hb2 : ¬ sep = b := fun e => hb e.symm
      by_cases ht : sep ∈ t
      · simp only [ht, if_true] at ih
        simp [Index, hb, hb2, ht, ih, List.takeWhile]
      · simp only [ht, if_false] at ih
        simp [Index, hb, hb2, ht, ih]

theorem wellFormed_iff (line : Str) : wellFormed line = true ↔ 0 < Index line 0x3A := by
  match line with
  | [] => simp [wellFormed, Index]
  | b :: t =>
    rw [Index_eq]
    by_cases hb : b = 0x3A
    · simp [wellFormed, hb]
    · have hb2 : ¬ 0x3A = b := fun e => hb e.symm
      by_cases ht : 0x3A ∈ t
      · simp [wellFormed, hb, hb2, ht, List.takeWhile]
      · simp [wellFormed, hb, hb2, ht]

theorem take_takeWhile_length (p : Nat → Bool) : ∀ (l : Str),
    l.take (l.takeWhile p).length = l.takeWhile p
    ∧ l.drop ((l.takeWhile p).length + 1) = (l.dropWhile p).drop 1
  | [] => by simp
  | b :: t => by
    have ih := take_takeWhile_length p t
    cases hp : p b with
    | true => simp [List.takeWhile, List.dropWhile, hp, ih.1, ih.2]
    | false => simp [List.takeWhile, List.dropWhile, hp]

theorem take_Index (line : Str) (h : 0 < Index line 0x3A) :
    line.take (Index line 0x3A).toNat = beforeColon line
    ∧ line.drop ((Index line 0x3A).toNat + 1) = afterColon line := by
  rw [Index_eq] at h ⊢
  by_cases hm : 0x3A ∈ line
  · simp only [hm, if_true, Int.toNat_ofNat, beforeColon, afterColon]
    exact take_takeWhile_length _ line
  · simp [hm] at h

theorem storeLine_eq (ct : Nat → Nat) (headers : Headers) (hline : Str) :
    (if Index hline 0x3A ≤ 0 then headers
     else headers.set (ToLower ct (TrimSpace (hline.take (Index hline 0x3A).toNat)))
            (TrimSpace (hline.drop ((Index hline 0x3A).toNat + 1))))
      = storeLine ct headers hline := by
  unfold storeLine
  by_cases h : 0 < Index hline 0x3A
  · have hw := (wellFormed_iff hline).2 h
    obtain ⟨h1, h2⟩ := take_Index hline h
    have : ¬ Index hline 0x3A ≤ 0 := by omega
    simp [this, hw, h1, h2, headerName, headerValue]
  · have hw : wellFormed hline = false := by
      cases hc : wellFormed hline with
      | false => rfl
      | true => exact absurd ((wellFormed_iff hline).1 hc) h
    have : Index hline 0x3A ≤ 0 := by omega
    simp [this, hw]

theorem readHeadersLoop_succ (ct : Nat → Nat) (fuel : Nat) (h : Headers) (r : Str) :
    readHeadersLoop ct (fuel + 1) h r =
      match readLine r with
      | .error e => .error e
      | .ok (line, rest) =>
        if line = [] then .ok (h, rest)
        else readHeadersLoop ct fuel (storeLine ct h line) rest := by
  rw [readHeadersLoop]
  cases hl : readLine r with
  | error e => rfl
  | ok v =>
    obtain ⟨line, rest⟩ := v
    by_cases hline : line = []
    · simp [hline]
    · simp only [hline, if_false]
      rw [← storeLine_eq]
      split <;> rfl

theorem readHeadersLoop_fuel (ct : Nat → Nat) : ∀ (f1 f2 : Nat) (h : Headers) (r : Str),
    r.length ≤ f1 → r.length ≤ f2 → readHeadersLoop ct f1 h r = readHeadersLoop ct f2 h r
  | 0, 0, _, _, _, _ => rfl
  | 0, f2 + 1, h, r, h1, _ => by
    have : r = [] := List.length_eq_zero.1 (by omega)
    subst this
    simp [readHeadersLoop, readLine_nil]
  | f1 + 1, 0, h, r, _, h2 => by
    have : r = [] := List.length_eq_zero.1 (by omega)
    subst this
    simp [readHeadersLoop, readLine_nil]
  | f1 + 1, f2 + 1, h, r, h1, h2 => by
    rw [readHeadersLoop_succ, readHeadersLoop_succ]
    cases hr : readLine r with
    | error e => rfl
    | ok v =>
      obtain ⟨line, rest⟩ := v
      have hl := readLine_length r line rest hr
      have e1 := fun h => readHeadersLoop_fuel ct f1 f2 h rest (by omega) (by omega)
      simp only [e1]

theorem readHeadersLoop_step (ct : Nat → Nat) (h : Headers) (r : Str) :
    readHeadersLoop ct r.length h r =
      match readLine r with
      | .error e => .error e
      | .ok (line, rest) =>
        if line = [] then .ok (h, rest)
        else readHeadersLoop ct rest.length (storeLine ct h line) rest := by
  match r with
  | [] => simp [readHeadersLoop, readLine_nil]
  | b :: t =>
    simp only [List.length_cons]
    rw [readHeadersLoop_succ]
    cases hl : readLine (b :: t) with
    | error e => rfl
    | ok v =>
      obtain ⟨line, rest⟩ := v
      have hlen := readLine_length (b :: t) line rest hl
      simp only [List.length_cons] at hlen
      have e1 := fun h => readHeadersLoop_fuel ct t.length rest.length h rest (by omega) (by omega)
      simp only [e1]

theorem block_cons (raw : Str) (raws : List Str) (tail : Str) :
    block (raw :: raws) ++ tail = raw ++ 0x0A :: (block raws ++ tail) := by
  simp [block]

theorem foldl_storeLine (ct : Nat → Nat) : ∀ (lines : List Str) (m : Headers),
    lines.foldl (storeLine ct) m
      = (lines.filter wellFormed).foldl
          (fun acc line => acc.set (headerName ct line) (headerValue line)) m
  | [], m => rfl
  | line :: lines, m => by
    cases hw : wellFormed line with
    | true => simp [List.filter, hw, storeLine, foldl_storeLine ct lines]
    | false => simp [List.filter, hw, storeLine, foldl_storeLine ct lines]

theorem readHeadersLoop_block (ct : Nat → Nat) (blank rest : Str)
    (hb : 0x0A ∉ blank) (hbl : lineOf blank = []) :
    ∀ (raws : List Str) (m : Headers), (∀ raw ∈ raws, 0x0A ∉ raw ∧ lineOf raw ≠ []) →
      readHeadersLoop ct (block raws ++ (blank ++ 0x0A :: rest)).length m
          (block raws ++ (blank ++ 0x0A :: rest))
        = .ok ((raws.map lineOf).foldl (storeLine ct) m, rest)
  | [], m, _ => by
    rw [readHeadersLoop_step]
    simp [block, readLine_raw blank rest hb, hbl]
  | raw :: raws, m, h => by
    have h1 := h raw (by simp)
    have ih := readHeadersLoop_block ct blank rest hb hbl raws (storeLine ct m (lineOf raw))
      (fun x hx => h x (by simp [hx]))
    rw [readHeadersLoop_step, block_cons, readLine_raw raw _ h1.1]
    simp only [h1.2, if_false, ih, List.map_cons, List.foldl_cons]

/-- C3: on a header block (lines that read as non-empty, then one that reads as
empty), `readHeaders` returns the map obtained from the empty map by storing, in
line order, one entry for each line whose first `:` is at an index greater than
0: under the text before that colon, trimmed and lower-cased, the text after
it, trimmed.  The stream left is what follows the blank line. -/
theorem readHeaders_block (ct : Nat → Nat) (raws : List Str) (blank rest : Str)
    (hraws : ∀ raw ∈ raws, 0x0A ∉ raw ∧ lineOf raw ≠ [])
    (hb : 0x0A ∉ blank) (hbl : lineOf blank = []) :
    readHeaders ct (block raws ++ (blank ++ 0x0A :: rest))
      = .ok (((raws.map lineOf).filter wellFormed).foldl
               (fun acc line => acc.set (ToLower ct (TrimSpace (beforeColon line)))
                  (TrimSpace (afterColon line))) [], rest) := by
  unfold readHeaders
  rw [readHeadersLoop_block ct blank rest hb hbl raws [] hraws, foldl_storeLine]
  rfl

/-- Witness of C3 on the block `Host: a:b`, `junk`, `:x`, ` Accept : */* `
ended by `\r\n`, with the text `body` after it. -/
theorem readHeaders_block_witness :
    readHeaders id (block [bytes "Host: a:b\r", bytes "junk\r", bytes ":x", bytes " Accept : */* "]
        ++ (bytes "\r" ++ 0x0A :: bytes "body"))
      = .ok ([(bytes "accept", bytes "*/*"), (bytes "host", bytes "a:b")], bytes "body") :=
  readHeaders_block id [bytes "Host: a:b\r", bytes "junk\r", bytes ":x", bytes " Accept : */* "]
    (bytes "\r") (bytes "body") (by decide) (by decide) (by decide)

/-! ## UTF-8 encoding and decoding -/

theorem decodeRune_extend (b : Nat) (t w : Str) :
    decodeRune b (t ++ w) = decodeRune b t ∨ decodeRune b t = (RuneError, 1) := by
  unfold decodeRune
  by_cases hb : b < 0x80
  · simp [hb]
  · simp only [hb, if_false]
    cases hf : first b with
    | none => simp
    | some v =>
      obtain ⟨sz, lo, hi⟩ := v
      match t with
      | [] => simp
      | [s1] =>
        simp only [List.cons_append, List.nil_append]
        by_cases h1 : s1 < lo ∨ hi < s1
        · simp [h1]
        · by_cases h2 : sz ≤ 2
          · simp [h1, h2]
          · simp [h1, h2]
      | [s1, s2] =>
        simp only [List.cons_append, List.nil_append]
        by_cases h1 : s1 < lo ∨ hi < s1
        · simp [h1]
        · by_cases h2 : sz ≤ 2
          · simp [h1, h2]
          · by_cases h3 : isCont s2 = true
            · by_cases h4 : sz ≤ 3
              · simp [h1, h2, h3, h4]
              · simp [h1, h2, h3, h4]
            · simp [h1, h2, h3]
      | s1 :: s2 :: s3 :: t3 => simp

theorem decodeRune_two (b s1 : Nat) (hb : 0xC2 ≤ b ∧ b ≤ 0xDF) (hs : 0x80 ≤ s1 ∧ s1 ≤ 0xBF) (t : Str) :
    decodeRune b (s1 :: t) = ((b % 0x20) * 0x40 + s1 % 0x40, 2) := by
  have hf : first b = some (2, 0x80, 0xBF) := by simp [first, hb]
  have h1 : ¬ b < 0x80 := by omega
  have h2 : ¬ (s1 < 0x80 ∨ 0xBF < s1) := by omega
  simp [decodeRune, h1, hf, h2]

theorem first_three (b : Nat) (hb : 0xE0 ≤ b ∧ b ≤ 0xEF) :
    ∃ lo hi, first b = some (3, lo, hi) ∧ lo = (if b = 0xE0 then 0xA0 else 0x80)
      ∧ hi = (if b = 0xED then 0x9F else 0xBF) := by
  unfold first
  have h0 : ¬ (0xC2 ≤ b ∧ b ≤ 0xDF) := by omega
  simp only [h0, if_false]
  by_cases h1 : b = 0xE0
  · simp [h1]
  · by_cases h2 : 0xE1 ≤ b ∧ b ≤ 0xEC
    · have : ¬ b = 0xED := by omega
      simp [h1, h2, this]
    · by_cases h3 : b = 0xED
      · simp [h3]
      · have h4 : 0xEE ≤ b ∧ b ≤ 0xEF := by omega
        simp [h1, h2, h3, h4]

theorem first_four (b : Nat) (hb : 0xF0 ≤ b ∧ b ≤ 0xF4) :
    ∃ lo hi, first b = some (4, lo, hi) ∧ lo = (if b = 0xF0 then 0x90 else 0x80)
      ∧ hi = (if b = 0xF4 then 0x8F else 0xBF) := by
  unfold first
  have h0 : ¬ (0xC2 ≤ b ∧ b ≤ 0xDF) := by omega
  have h1 : ¬ b = 0xE0 := by omega
  have h2 : ¬ (0xE1 ≤ b ∧ b ≤ 0xEC) := by omega
  have h3 : ¬ b = 0xED := by omega
  have h4 : ¬ (0xEE ≤ b ∧ b ≤ 0xEF) := by omega
  simp only [h0, h1, h2, h3, h4, if_false]
  by_cases h5 : b = 0xF0
  · simp [h5]
  · by_cases h6 : 0xF1 ≤ b ∧ b ≤ 0xF3
    · have : ¬ b = 0xF4 := by omega
      simp [h5, h6, this]
    · have h7 : b = 0xF4 := by omega
      simp [h7]

theorem decodeRune_encodeRune (r : Nat) :
    ∃ b t, encodeRune r = b :: t ∧ decodeRune b t = (writtenRune r, t.length + 1)
      ∧ (t = [] → b < 0x80) := by
  unfold encodeRune writtenRune
  by_cases h1 : r < 0x80
  · refine ⟨r, [], by simp [h1], ?_, fun _ => h1⟩
    have : ¬ ((0xD800 ≤ r ∧ r ≤ 0xDFFF) ∨ 0x10FFFF < r) := by omega
    simp [decodeRune, h1, this]
  · by_cases h2 : r < 0x800
    · refine ⟨0xC0 + r / 0x40, [0x80 + r % 0x40], by simp [h1, h2], ?_, by simp⟩
      have : ¬ ((0xD800 ≤ r ∧ r ≤ 0xDFFF) ∨ 0x10FFFF < r) := by omega
      rw [decodeRune_two _ _ (by omega) (by omega)]
      simp only [this, if_false, List.length_cons, List.length_nil, Prod.mk.injEq, and_true]
      omega
    · by_cases h3 : (0xD800 ≤ r ∧ r ≤ 0xDFFF) ∨ 0x10FFFF < r
      · refine ⟨0xEF, [0xBF, 0xBD], by simp [h1, h2, h3], ?_, by simp⟩
        simp only [h3, if_true]
        decide
      · by_cases h4 : r < 0x10000
        · refine ⟨0xE0 + r / 0x1000, [0x80 + (r / 0x40) % 0x40, 0x80 + r % 0x40],
            by simp [h1, h2, h3, h4], ?_, by simp⟩
          obtain ⟨lo, hi, hf, hlo, hhi⟩ := first_three (0xE0 + r / 0x1000) (by omega)
          have hb : ¬ 0xE0 + r / 0x1000 < 0x80 := by omega
          have hs1 : ¬ (0x80 + (r / 0x40) % 0x40 < lo ∨ hi < 0x80 + (r / 0x40) % 0x40) := by
            rw [hlo, hhi]
            split <;> split <;> omega
          have hs2 : isCont (0x80 + r % 0x40) = true := by simp [isCont]; omega
          simp only [decodeRune, hb, if_false, hf, hs1, hs2, h3]
          simp
          omega
        · refine ⟨0xF0 + r / 0x40000, [0x80 + (r / 0x1000) % 0x40, 0x80 + (r / 0x40) % 0x40,
            0x80 + r % 0x40], by simp [h1, h2, h3, h4], ?_, by simp⟩
          obtain ⟨lo, hi, hf, hlo, hhi⟩ := first_four (0xF0 + r / 0x40000) (by omega)
          have hb : ¬ 0xF0 + r / 0x40000 < 0x80 := by omega
          have hs1 : ¬ (0x80 + (r / 0x1000) % 0x40 < lo ∨ hi < 0x80 + (r / 0x1000) % 0x40) := by
            rw [hlo, hhi]
            split <;> split <;> omega
          have hs2 : isCont (0x80 + (r / 0x40) % 0x40) = true := by simp [isCont]; omega
          have hs3 : isCont (0x80 + r % 0x40) = true := by simp [isCont]; omega
          simp only [decodeRune, hb, if_false, hf, hs1, hs2, hs3, h3]
          simp
          omega

theorem first_lead (b : Nat) (v : Nat × Nat × Nat) (h : first b = some v) :
    0xC2 ≤ b ∧ b ≤ 0xF4 := by
  unfold first at h
  repeat (first | split at h | simp at h | omega)

theorem decodeRune_size_le_four (b : Nat) (t : Str) : (decodeRune b t).2 ≤ 4 := by
  unfold decodeRune
  repeat (first | split | simp)

theorem decodeRune_size_two (b : Nat) (t : Str) (h : 2 ≤ (decodeRune b t).2) :
    ∃ s1 t1, t = s1 :: t1 ∧ 0xC2 ≤ b ∧ isCont s1 = true := by
  unfold decodeRune at h
  by_cases hb : b < 0x80
  · simp [hb] at h
  · simp only [hb, if_false] at h
    cases hf : first b with
    | none => simp [hf] at h
    | some v =>
      obtain ⟨sz, lo, hi⟩ := v
      have hl := first_lead b _ hf
      have hr := first_range b sz lo hi hf
      match t with
      | [] => simp [hf] at h
      | s1 :: t1 =>
        refine ⟨s1, t1, rfl, hl.1, ?_⟩
        by_cases h1 : s1 < lo ∨ hi < s1
        · simp [hf, h1] at h
        · simp [isCont]; omega

theorem decodeRune_size_three (b s1 : Nat) (t1 : Str) (h : 3 ≤ (decodeRune b (s1 :: t1)).2) :
    ∃ s2 t2, t1 = s2 :: t2 ∧ isCont s2 = true := by
  unfold decodeRune at h
  by_cases hb : b < 0x80
  · simp [hb] at h
  · simp only [hb, if_false] at h
    cases hf : first b with
    | none => simp [hf] at h
    | some v =>
      obtain ⟨sz, lo, hi⟩ := v
      simp only [hf] at h
      by_cases h1 : s1 < lo ∨ hi < s1
      · simp [h1] at h
      · by_cases h2 : sz ≤ 2
        · simp [h1, h2] at h
        · match t1 with
          | [] => simp [h1, h2] at h
          | s2 :: t2 =>
            refine ⟨s2, t2, rfl, ?_⟩
            by_cases h3 : isCont s2 = true
            · exact h3
            · simp [h1, h2, h3] at h

theorem decodeRune_size_four (b s1 s2 : Nat) (t2 : Str)
    (h : 4 ≤ (decodeRune b (s1 :: s2 :: t2)).2) :
    ∃ s3 t3, t2 = s3 :: t3 ∧ isCont s3 = true := by
  unfold decodeRune at h
  by_cases hb : b < 0x80
  · simp [hb] at h
  · simp only [hb, if_false] at h
    cases hf : first b with
    | none => simp [hf] at h
    | some v =>
      obtain ⟨sz, lo, hi⟩ := v
      simp only [hf] at h
      by_cases h1 : s1 < lo ∨ hi < s1
      · simp [h1] at h
      · by_cases h2 : sz ≤ 2
        · simp [h1, h2] at h
        · by_cases h3 : isCont s2 = true
          · by_cases h4 : sz ≤ 3
            · simp [h1, h2, h3, h4] at h
            · match t2 with
              | [] => simp [h1, h2, h3, h4] at h
              | s3 :: t3 =>
                refine ⟨s3, t3, rfl, ?_⟩
                by_cases h5 : isCont s3 = true
                · exact h5
                · simp [h1, h2, h3, h4, h5] at h
          · simp [h1, h2, h3] at h

theorem isCont_true (c : Nat) (h : isCont c = true) : ¬ c < 0x80 := by
  simp [isCont] at h; omega

theorem isCont_lead (b : Nat) (h : 0xC2 ≤ b) : isCont b = false := by
  simp [isCont]; omega

theorem decodeLastRune_of_decodeRune (b0 r : Nat) (t0 rp : Str)
    (h : decodeRune b0 t0 = (r, t0.length + 1)) (h1 : t0 = [] → b0 < 0x80) :
    ∃ c before, t0.reverse ++ b0 :: rp = c :: before
      ∧ decodeLastRune c before = (r, t0.length + 1) := by
  have hsz : (decodeRune b0 t0).2 = t0.length + 1 := by rw [h]
  match t0, h, h1, hsz with
  | [], h, h1, _ =>
    refine ⟨b0, rp, rfl, ?_⟩
    have hb := h1 rfl
    simp only [decodeRune, hb, if_true] at h
    simp only [decodeLastRune, hb, if_true]
    exact h
  | [s1], h, _, hsz =>
    refine ⟨s1, b0 :: rp, rfl, ?_⟩
    obtain ⟨s1', t1, e, hb, hc⟩ := decodeRune_size_two b0 [s1] (by rw [hsz]; simp)
    simp only [List.cons.injEq] at e
    obtain ⟨rfl, rfl⟩ := e
    simp [decodeLastRune, isCont_true _ hc, isCont_lead _ hb, h]
  | [s1, s2], h, _, hsz =>
    refine ⟨s2, s1 :: b0 :: rp, rfl, ?_⟩
    obtain ⟨s1', t1, e, hb, hc⟩ := decodeRune_size_two b0 [s1, s2] (by rw [hsz]; simp)
    simp only [List.cons.injEq] at e
    obtain ⟨rfl, rfl⟩ := e
    obtain ⟨s2', t2, e, hc2⟩ := decodeRune_size_three b0 s1 [s2] (by rw [hsz]; simp)
    simp only [List.cons.injEq] at e
    obtain ⟨rfl, rfl⟩ := e
    simp [decodeLastRune, isCont_true _ hc2, isCont_lead _ hb, hc, h]
  | [s1, s2, s3], h, _, hsz =>
    refine ⟨s3, s2 :: s1 :: b0 :: rp, rfl, ?_⟩
    obtain ⟨s1', t1, e, hb, hc⟩ := decodeRune_size_two b0 [s1, s2, s3] (by rw [hsz]; simp)
    simp only [List.cons.injEq] at e
    obtain ⟨rfl, rfl⟩ := e
    obtain ⟨s2', t2, e, hc2⟩ := decodeRune_size_three b0 s1 [s2, s3] (by rw [hsz]; simp)
    simp only [List.cons.injEq] at e
    obtain ⟨rfl, rfl⟩ := e
    obtain ⟨s3', t3, e, hc3⟩ := decodeRune_size_four b0 s1 s2 [s3] (by rw [hsz]; simp)
    simp only [List.cons.injEq] at e
    obtain ⟨rfl, rfl⟩ := e
    simp [decodeLastRune, isCont_true _ hc3, isCont_lead _ hb, hc, hc2, h]
  | s1 :: s2 :: s3 :: s4 :: t4, _, _, hsz =>
    have := decodeRune_size_le_four b0 (s1 :: s2 :: s3 :: s4 :: t4)
    rw [hsz] at this
    simp at this

theorem runeSpans_eq_nil : ∀ (t : Str) (k : Nat), runeSpans t k = [] ↔ t.length ≤ k
  | [], k => by simp [runeSpans]
  | b :: t, 0 => by simp [runeSpans]
  | b :: t, k + 1 => by simp [runeSpans, runeSpans_eq_nil t k]

theorem runeSpans_skip (rest : Str) : ∀ (a : Str),
    runeSpans (a ++ rest) a.length = runeSpans rest 0
  | [] => rfl
  | b :: a => by simp [runeSpans, runeSpans_skip rest a]

theorem runeSpans_encodeRune (r : Nat) (rest : Str) :
    runeSpans (encodeRune r ++ rest) 0 = (writtenRune r, encodeRune r) :: runeSpans rest 0 := by
  obtain ⟨b, t, he, hd, h1⟩ := decodeRune_encodeRune r
  have hx : decodeRune b (t ++ rest) = (writtenRune r, t.length + 1) := by
    rcases decodeRune_extend b t rest with h | h
    · rw [h, hd]
    · rw [hd] at h
      simp only [Prod.mk.injEq, add_left_eq_self, List.length_eq_zero] at h
      have hb := h1 h.2
      have : t = [] := h.2
      subst this
      simp [decodeRune, hb] at hd ⊢
      exact hd
  rw [he, List.cons_append, runeSpans_cons_zero, hx]
  simp only [Nat.add_sub_cancel, runeSpans_skip]
  congr 2
  rw [← List.cons_append, List.take_append_of_le_length (by simp)]
  simp

theorem runeSpans_encode_all : ∀ (rs : List Nat),
    runeSpans (rs.map encodeRune).flatten 0 = rs.map fun r => (writtenRune r, encodeRune r)
  | [] => rfl
  | r :: rs => by
    simp only [List.map_cons, List.flatten_cons, runeSpans_encodeRune, runeSpans_encode_all rs]

theorem encodeRune_writtenRune (r : Nat) : encodeRune (writtenRune r) = encodeRune r := by
  unfold writtenRune
  by_cases h : (0xD800 ≤ r ∧ r ≤ 0xDFFF) ∨ 0x10FFFF < r
  · have h1 : ¬ r < 0x80 := by omega
    have h2 : ¬ r < 0x800 := by omega
    simp only [h, if_true, encodeRune, h1, h2, if_false]
    decide
  · simp [h]

theorem unicodeToLower_idem (ct : Nat → Nat)
    (hidem : ∀ r, 0x7F < r → unicodeToLower ct (ct r) = ct r)
    (hfffd : ct 0xFFFD = 0xFFFD) (r : Nat) :
    encodeRune (unicodeToLower ct (writtenRune (unicodeToLower ct r)))
      = encodeRune (unicodeToLower ct r) := by
  have hL : unicodeToLower ct (unicodeToLower ct r) = unicodeToLower ct r := by
    by_cases h : r ≤ 0x7F
    · by_cases h2 : 0x41 ≤ r ∧ r ≤ 0x5A
      · have h3 : r + 0x20 ≤ 0x7F := by omega
        have h4 : ¬ (0x41 ≤ r + 0x20 ∧ r + 0x20 ≤ 0x5A) := by omega
        simp only [unicodeToLower, h, h2, h3, h4, if_true, if_false, and_self]
      · simp [unicodeToLower, h, h2]
    · have h' : 0x7F < r := by omega
      have := hidem r h'
      simp only [unicodeToLower, h, if_false]
      exact this
  generalize unicodeToLower ct r = x at hL ⊢
  unfold writtenRune
  by_cases h : (0xD800 ≤ x ∧ x ≤ 0xDFFF) ∨ 0x10FFFF < x
  · have h1 : ¬ x < 0x80 := by omega
    have h2 : ¬ x < 0x800 := by omega
    have h3 : unicodeToLower ct RuneError = RuneError := by
      simp [unicodeToLower, RuneError, hfffd]
    simp only [h, if_true, h3]
    simp only [encodeRune, h1, h2, h, if_false, if_true]
    decide
  · simp only [h, if_false, hL]

theorem ToLower_idem (ct : Nat → Nat)
    (hidem : ∀ r, 0x7F < r → unicodeToLower ct (ct r) = ct r)
    (hfffd : ct 0xFFFD = 0xFFFD) (s : Str) :
    ToLower ct (ToLower ct s) = ToLower ct s := by
  have e : ToLower ct s
      = (((runeSpans s 0).map fun p => unicodeToLower ct p.1).map encodeRune).flatten := by
    simp [ToLower, List.map_map, Function.comp_def]
  conv_lhs => rw [ToLower, e, runeSpans_encode_all]
  rw [e]
  simp only [List.map_map, Function.comp_def, unicodeToLower_idem ct hidem hfffd]

theorem decodeRune_nil (b : Nat) (hb : ¬ b < 0x80) : decodeRune b [] = (RuneError, 1) := by
  unfold decodeRune
  simp only [hb, if_false]
  cases first b with
  | none => rfl
  | some v => rfl

theorem isSpace_RuneError : isSpace RuneError = false := by decide

theorem trimLeftSpace_head : ∀ (s : Str) (k : Nat),
    trimLeftSpace s k = [] ∨
      ∃ b t, trimLeftSpace s k = b :: t ∧ isSpace (decodeRune b t).1 = false
  | [], k => by simp [trimLeftSpace]
  | b :: t, 0 => by
    by_cases h : isSpace (decodeRune b t).1 = true
    · simp only [trimLeftSpace, h, if_true]
      exact trimLeftSpace_head t _
    · simp only [trimLeftSpace, h]
      exact .inr ⟨b, t, rfl, by simpa using h⟩
  | b :: t, k + 1 => by
    simp only [trimLeftSpace]
    exact trimLeftSpace_head t k

theorem trimRightSpaceRev_head : ∀ (s : Str) (k : Nat),
    trimRightSpaceRev s k = [] ∨
      ∃ b t, trimRightSpaceRev s k = b :: t ∧ isSpace (decodeLastRune b t).1 = false
  | [], k => by simp [trimRightSpaceRev]
  | b :: t, 0 => by
    by_cases h : isSpace (decodeLastRune b t).1 = true
    · simp only [trimRightSpaceRev, h, if_true]
      exact trimRightSpaceRev_head t _
    · simp only [trimRightSpaceRev, h]
      exact .inr ⟨b, t, rfl, by simpa using h⟩
  | b :: t, k + 1 => by
    simp only [trimRightSpaceRev]
    exact trimRightSpaceRev_head t k

theorem trimRightSpaceRev_suffix : ∀ (s : Str) (k : Nat),
    ∃ d, s = d ++ trimRightSpaceRev s k
  | [], k => ⟨[], by simp [trimRightSpaceRev]⟩
  | b :: t, 0 => by
    by_cases h : isSpace (decodeLastRune b t).1 = true
    · obtain ⟨d, hd⟩ := trimRightSpaceRev_suffix t ((decodeLastRune b t).2 - 1)
      refine ⟨b :: d, ?_⟩
      simp only [trimRightSpaceRev, h, if_true, List.cons_append]
      rw [← hd]
    · exact ⟨[], by simp [trimRightSpaceRev, h]⟩
  | b :: t, k + 1 => by
    obtain ⟨d, hd⟩ := trimRightSpaceRev_suffix t k
    refine ⟨b :: d, ?_⟩
    simp only [trimRightSpaceRev, List.cons_append]
    rw [← hd]

theorem TrimSpace_head (s : Str) :
    TrimSpace s = [] ∨ ∃ b t, TrimSpace s = b :: t ∧ isSpace (decodeRune b t).1 = false := by
  unfold TrimSpace
  obtain ⟨d, hd⟩ := trimRightSpaceRev_suffix (trimLeftSpace s 0).reverse 0
  generalize trimRightSpaceRev (trimLeftSpace s 0).reverse 0 = res at hd
  have hs : trimLeftSpace s 0 = res.reverse ++ d.reverse := by
    have := congrArg List.reverse hd
    simpa using this
  match hres : res.reverse with
  | [] => exact .inl rfl
  | b :: t =>
    refine .inr ⟨b, t, rfl, ?_⟩
    rw [hres] at hs
    rcases trimLeftSpace_head s 0 with h | ⟨b', t', h, hsp⟩
    · rw [h] at hs; simp at hs
    · rw [h] at hs
      simp only [List.cons_append, List.cons.injEq] at hs
      obtain ⟨rfl, rfl⟩ := hs
      rcases decodeRune_extend b' t d.reverse with e | e
      · rw [← e]; exact hsp
      · rw [e]; exact isSpace_RuneError

theorem TrimSpace_last (s : Str) :
    TrimSpace s = [] ∨
      ∃ c before, (TrimSpace s).reverse = c :: before
        ∧ isSpace (decodeLastRune c before).1 = false := by
  unfold TrimSpace
  rcases trimRightSpaceRev_head (trimLeftSpace s 0).reverse 0 with h | ⟨c, before, h, hsp⟩
  · exact .inl (by rw [h]; rfl)
  · exact .inr ⟨c, before, by rw [h]; simp, hsp⟩

theorem TrimSpace_fixed (t : Str)
    (hhead : t = [] ∨ ∃ b t1, t = b :: t1 ∧ isSpace (decodeRune b t1).1 = false)
    (hlast : t = [] ∨ ∃ c before, t.reverse = c :: before
        ∧ isSpace (decodeLastRune c before).1 = false) :
    TrimSpace t = t := by
  rcases hhead with rfl | ⟨b, t1, rfl, hsp⟩
  · rfl
  · have h1 : trimLeftSpace (b :: t1) 0 = b :: t1 := by simp [trimLeftSpace, hsp]
    rcases hlast with h | ⟨c, before, hr, hsp2⟩
    · simp at h
    · unfold TrimSpace
      rw [h1, hr]
      simp only [trimRightSpaceRev, hsp2]
      rw [← hr]
      simp

theorem TrimSpace_idem (s : Str) : TrimSpace (TrimSpace s) = TrimSpace s :=
  TrimSpace_fixed _ (TrimSpace_head s) (TrimSpace_last s)

theorem isSpace_lower (ct : Nat → Nat)
    (hspace : ∀ r, 0x7F < r → isSpace r = false → isSpace (ct r) = false)
    (r : Nat) (h : isSpace r = false) :
    isSpace (writtenRune (unicodeToLower ct r)) = false := by
  have h1 : isSpace (unicodeToLower ct r) = false := by
    by_cases hr : r ≤ 0x7F
    · by_cases h2 : 0x41 ≤ r ∧ r ≤ 0x5A
      · simp only [unicodeToLower, hr, h2, if_true, and_self]
        obtain ⟨h2a, h2b⟩ := h2
        interval_cases r <;> rfl
      · simp only [unicodeToLower, hr, h2, if_true, if_false]
        exact h
    · simp only [unicodeToLower, hr, if_false]
      exact hspace r (by omega) h
  unfold writtenRune
  split
  · exact isSpace_RuneError
  · exact h1

theorem lastRune_space : ∀ (t : Str) (k : Nat) (rp : Str) (r : Nat) (bs : Str),
    (runeSpans t k).getLast? = some (r, bs) → isSpace r = true →
      ∃ c before, t.reverse ++ rp = c :: before ∧ isSpace (decodeLastRune c before).1 = true
  | [], k, rp, r, bs, h, _ => by simp [runeSpans] at h
  | b :: t, k + 1, rp, r, bs, h, hs => by
    rw [runeSpans_cons_succ] at h
    obtain ⟨c, before, e, hc⟩ := lastRune_space t k (b :: rp) r bs h hs
    exact ⟨c, before, by simpa using e, hc⟩
  | b :: t, 0, rp, r, bs, h, hs => by
    rw [runeSpans_cons_zero] at h
    by_cases hnil : runeSpans t ((decodeRune b t).2 - 1) = []
    · rw [hnil] at h
      simp only [List.getLast?_singleton, Option.some.injEq, Prod.mk.injEq] at h
      have hlen := (runeSpans_eq_nil t _).1 hnil
      have hle := decodeRune_size_le b t
      have hpos := decodeRune_size_pos b t
      have hsz : (decodeRune b t).2 = t.length + 1 := by omega
      have hd : decodeRune b t = (r, t.length + 1) := by
        rw [← h.1, ← hsz]
      have h1 : t = [] → b < 0x80 := by
        intro ht
        by_contra hb
        rw [ht, decodeRune_nil b hb] at hd
        simp only [Prod.mk.injEq] at hd
        rw [← hd.1, isSpace_RuneError] at hs
        exact Bool.noConfusion hs
      obtain ⟨c, before, e, hc⟩ := decodeLastRune_of_decodeRune b r t rp hd h1
      exact ⟨c, before, by simpa using e, by rw [hc]; exact hs⟩
    · obtain ⟨y, ys, hy⟩ := List.exists_cons_of_ne_nil hnil
      rw [hy, List.getLast?_cons_cons, ← hy] at h
      obtain ⟨c, before, e, hc⟩ := lastRune_space t _ (b :: rp) r bs h hs
      exact ⟨c, before, by simpa using e, hc⟩

theorem ToLower_nil (ct : Nat → Nat) : ToLower ct [] = [] := rfl

theorem ToLower_TrimSpace_head (ct : Nat → Nat)
    (hspace : ∀ r, 0x7F < r → isSpace r = false → isSpace (ct r) = false) (s : Str) :
    ToLower ct (TrimSpace s) = [] ∨
      ∃ b t, ToLower ct (TrimSpace s) = b :: t ∧ isSpace (decodeRune b t).1 = false := by
  rcases TrimSpace_head s with h | ⟨b, t, h, hsp⟩
  · rw [h]; exact .inl rfl
  · rw [h]
    right
    have hu : ToLower ct (b :: t)
        = encodeRune (unicodeToLower ct (decodeRune b t).1)
          ++ ((runeSpans t ((decodeRune b t).2 - 1)).map
                fun p => encodeRune (unicodeToLower ct p.1)).flatten := by
      simp [ToLower, runeSpans_cons_zero]
    have hspan := runeSpans_encodeRune (unicodeToLower ct (decodeRune b t).1)
      ((runeSpans t ((decodeRune b t).2 - 1)).map
                fun p => encodeRune (unicodeToLower ct p.1)).flatten
    rw [← hu] at hspan
    match hm : ToLower ct (b :: t) with
    | [] =>
      rw [hm] at hspan
      simp [runeSpans] at hspan
    | b1 :: t1 =>
      refine ⟨b1, t1, rfl, ?_⟩
      rw [hm, runeSpans_cons_zero] at hspan
      simp only [List.cons.injEq, Prod.mk.injEq] at hspan
      rw [hspan.1.1]
      exact isSpace_lower ct hspace _ hsp

theorem ToLower_TrimSpace_last (ct : Nat → Nat)
    (hspace : ∀ r, 0x7F < r → isSpace r = false → isSpace (ct r) = false) (s : Str) :
    ToLower ct (TrimSpace s) = [] ∨
      ∃ c before, (ToLower ct (TrimSpace s)).reverse = c :: before
        ∧ isSpace (decodeLastRune c before).1 = false := by
  rcases TrimSpace_last s with h | ⟨c0, before0, hrev, hsp⟩
  · rw [h]; exact .inl rfl
  · right
    generalize TrimSpace s = t at hrev
    have hne : runeSpans t 0 ≠ [] := by
      intro e
      have := (runeSpans_eq_nil t 0).1 e
      have : t = [] := List.length_eq_zero.1 (by omega)
      rw [this] at hrev
      simp at hrev
    obtain ⟨xs, p, hp⟩ : ∃ xs p, runeSpans t 0 = xs ++ [p] :=
      ⟨_, _, (List.dropLast_append_getLast hne).symm⟩
    have hrn : isSpace p.1 = false := by
      cases hsp1 : isSpace p.1 with
      | false => rfl
      | true =>
        obtain ⟨c, before, e, hc⟩ := lastRune_space t 0 [] p.1 p.2 (by rw [hp]; simp) hsp1
        rw [List.append_nil, hrev] at e
        simp only [List.cons.injEq] at e
        obtain ⟨rfl, rfl⟩ := e
        rw [hc] at hsp
        exact Bool.noConfusion hsp
    obtain ⟨b1, t1, he, hd, h1⟩ := decodeRune_encodeRune (unicodeToLower ct p.1)
    have hu : (ToLower ct t).reverse
        = t1.reverse ++ b1 :: ((xs.map fun p => encodeRune (unicodeToLower ct p.1)).flatten).reverse := by
      simp [ToLower, hp, he]
    obtain ⟨c, before, e, hc⟩ := decodeLastRune_of_decodeRune b1 _ t1
      ((xs.map fun p => encodeRune (unicodeToLower ct p.1)).flatten).reverse hd h1
    refine ⟨c, before, by rw [hu, e], ?_⟩
    rw [hc]
    exact isSpace_lower ct hspace _ hrn

theorem TrimSpace_ToLower (ct : Nat → Nat)
    (hspace : ∀ r, 0x7F < r → isSpace r = false → isSpace (ct r) = false) (s : Str) :
    TrimSpace (ToLower ct (TrimSpace s)) = ToLower ct (TrimSpace s) :=
  TrimSpace_fixed _ (ToLower_TrimSpace_head ct hspace s) (ToLower_TrimSpace_last ct hspace s)

/-! ## The invariant of the header map -/

theorem storeLine_normalized (ct : Nat → Nat)
    (hidem : ∀ r, 0x7F < r → unicodeToLower ct (ct r) = ct r)
    (hfffd : ct 0xFFFD = 0xFFFD)
    (hspace : ∀ r, 0x7F < r → isSpace r = false → isSpace (ct r) = false)
    (m : Headers) (line : Str)
    (hm : ∀ kv ∈ m, ToLower ct kv.1 = kv.1 ∧ TrimSpace kv.1 = kv.1 ∧ TrimSpace kv.2 = kv.2) :
    ∀ kv ∈ storeLine ct m line,
      ToLower ct kv.1 = kv.1 ∧ TrimSpace kv.1 = kv.1 ∧ TrimSpace kv.2 = kv.2 := by
  unfold storeLine
  split
  · intro kv hkv
    simp only [Headers.set, List.mem_cons, List.mem_filter] at hkv
    rcases hkv with rfl | hkv
    · exact ⟨ToLower_idem ct hidem hfffd _, TrimSpace_ToLower ct hspace _, TrimSpace_idem _⟩
    · exact hm kv hkv.1
  · exact hm

theorem readHeadersLoop_normalized (ct : Nat → Nat)
    (hidem : ∀ r, 0x7F < r → unicodeToLower ct (ct r) = ct r)
    (hfffd : ct 0xFFFD = 0xFFFD)
    (hspace : ∀ r, 0x7F < r → isSpace r = false → isSpace (ct r) = false) :
    ∀ (fuel : Nat) (m : Headers) (r : Str) (res : Headers) (rest : Str),
      (∀ kv ∈ m, ToLower ct kv.1 = kv.1 ∧ TrimSpace kv.1 = kv.1 ∧ TrimSpace kv.2 = kv.2) →
      readHeadersLoop ct fuel m r = .ok (res, rest) →
      ∀ kv ∈ res, ToLower ct kv.1 = kv.1 ∧ TrimSpace kv.1 = kv.1 ∧ TrimSpace kv.2 = kv.2
  | 0, m, r, res, rest, _, h => by simp [readHeadersLoop] at h
  | fuel + 1, m, r, res, rest, hm, h => by
    rw [readHeadersLoop_succ] at h
    cases hl : readLine r with
    | error e => simp [hl] at h
    | ok v =>
      obtain ⟨line, rest1⟩ := v
      simp only [hl] at h
      by_cases hline : line = []
      · simp only [hline, if_true, Except.ok.injEq, Prod.mk.injEq] at h
        rw [← h.1]
        exact hm
      · simp only [hline, if_false] at h
        exact readHeadersLoop_normalized ct hidem hfffd hspace fuel _ rest1 res rest
          (storeLine_normalized ct hidem hfffd hspace m line hm) h

/-- C4: when the lower-case table of package `unicode` is idempotent, leaves
`RuneError` alone and maps no rune that is not white space to white space,
every key of a map that `readHeaders` returns is lower-case (unchanged by
`strings.ToLower`) and trimmed (unchanged by `strings.TrimSpace`), and every
value is trimmed. -/
theorem readHeaders_normalized (ct : Nat → Nat)
    (hidem : ∀ r, 0x7F < r → unicodeToLower ct (ct r) = ct r)
    (hfffd : ct 0xFFFD = 0xFFFD)
    (hspace : ∀ r, 0x7F < r → isSpace r = false → isSpace (ct r) = false)
    (r : Str) (m : Headers) (rest : Str) (h : readHeaders ct r = .ok (m, rest)) :
    ∀ kv ∈ m, ToLower ct kv.1 = kv.1 ∧ TrimSpace kv.1 = kv.1 ∧ TrimSpace kv.2 = kv.2 :=
  readHeadersLoop_normalized ct hidem hfffd hspace r.length [] r m rest (by simp) h

theorem sampleCaseTable_idem (r : Nat) (_h : 0x7F < r) :
    unicodeToLower sampleCaseTable (sampleCaseTable r) = sampleCaseTable r := by
  simp only [unicodeToLower, sampleCaseTable]
  split_ifs <;> omega

theorem sampleCaseTable_space (r : Nat) (_h : 0x7F < r) (hs : isSpace r = false) :
    isSpace (sampleCaseTable r) = false := by
  unfold sampleCaseTable
  split_ifs with h1 h2
  · simp [isSpace]; omega
  · rfl
  · exact hs

/-- Witness of C4 on a header whose name holds `À` and the Kelvin sign and
whose value is followed by a no-break space. -/
theorem readHeaders_normalized_witness :
    readHeaders sampleCaseTable (bytes " X-\u00C0\u212A : a b\u00A0\r\n\r\n")
        = .ok ([(bytes "x-\u00E0k", bytes "a b")], [])
    ∧ ∀ kv ∈ [(bytes "x-\u00E0k", bytes "a b")],
        ToLower sampleCaseTable kv.1 = kv.1 ∧ TrimSpace kv.1 = kv.1 ∧ TrimSpace kv.2 = kv.2 :=
  ⟨by decide,
   readHeaders_normalized sampleCaseTable sampleCaseTable_idem (by decide) sampleCaseTable_space
     (bytes " X-\u00C0\u212A : a b\u00A0\r\n\r\n") _ [] (by decide)⟩

/-! ## The header map -/

theorem get_filter_ne (key k : Str) : ∀ (m : Headers),
    Headers.get (m.filter fun p => p.1 ≠ key) k = if k = key then none else Headers.get m k
  | [] => by simp [Headers.get]
  | (k1, v1) :: m => by
    have ih := get_filter_ne key k m
    by_cases h1 : k1 = key
    · subst h1
      by_cases h2 : k = k1
      · subst h2
        simp only [if_true] at ih
        simpa [List.filter, Headers.get] using ih
      · have h3 : ¬ k1 = k := fun e => h2 e.symm
        simp only [h2, if_false] at ih
        simpa [List.filter, Headers.get, h2, h3] using ih
    · by_cases h2 : k = key
      · subst h2
        simp only [if_true] at ih
        simpa [List.filter, Headers.get, h1] using ih
      · simp only [h2, if_false] at ih
        have hd : decide (k1 ≠ key) = true := by simpa using h1
        simp only [List.filter, hd, Headers.get, ih, h2, if_false]

theorem get_set (m : Headers) (key val k : Str) :
    (m.set key val).get k = if k = key then some val else m.get k := by
  by_cases h : k = key
  · subst h; simp [Headers.set, Headers.get]
  · have h3 : ¬ key = k := fun e => h e.symm
    have := get_filter_ne key k m
    simp only [h, if_false] at this
    simp only [Headers.set, Headers.get, h3, if_false, this, h]

theorem keys_set (m : Headers) (key val : Str) (hm : (m.map Prod.fst).Nodup) :
    ((m.set key val).map Prod.fst).Nodup := by
  simp only [Headers.set, List.map_cons, List.nodup_cons]
  constructor
  · simp [List.mem_map, List.mem_filter]
  · exact (List.Nodup.sublist ((List.filter_sublist m).map Prod.fst) hm)

theorem keys_storeLine (ct : Nat → Nat) (m : Headers) (line : Str)
    (hm : (m.map Prod.fst).Nodup) : ((storeLine ct m line).map Prod.fst).Nodup := by
  unfold storeLine
  split
  · exact keys_set m _ _ hm
  · exact hm

theorem keys_foldl_storeLine (ct : Nat → Nat) : ∀ (lines : List Str) (m : Headers),
    (m.map Prod.fst).Nodup → ((lines.foldl (storeLine ct) m).map Prod.fst).Nodup
  | [], _, hm => hm
  | line :: lines, m, hm =>
    keys_foldl_storeLine ct lines (storeLine ct m line) (keys_storeLine ct m line hm)

theorem get_foldl_other (ct : Nat → Nat) (k : Str) : ∀ (lines : List Str) (m : Headers),
    (∀ line ∈ lines, wellFormed line = true → headerName ct line ≠ k) →
      (lines.foldl (storeLine ct) m).get k = m.get k
  | [], _, _ => rfl
  | line :: lines, m, h => by
    have ih := get_foldl_other ct k lines (storeLine ct m line) (fun l hl => h l (by simp [hl]))
    rw [List.foldl_cons, ih]
    unfold storeLine
    cases hw : wellFormed line with
    | false => simp
    | true =>
      have := h line (by simp) hw
      have hk : ¬ k = headerName ct line := fun e => this e.symm
      simp [get_set, hk]

theorem get_of_mem (k v : Str) : ∀ (m : Headers), (m.map Prod.fst).Nodup →
    (m.get k = some v ↔ (k, v) ∈ m)
  | [], _ => by simp [Headers.get]
  | (k1, v1) :: m, h => by
    simp only [List.map_cons, List.nodup_cons] at h
    have ih := get_of_mem k v m h.2
    by_cases h1 : k1 = k
    · subst h1
      have : (k1, v) ∉ m := fun hm => h.1 (List.mem_map.2 ⟨(k1, v), hm, rfl⟩)
      simp [Headers.get, this]
      exact eq_comm
    · simp [Headers.get, h1, ih]
      intro e
      exact absurd e.symm h1

/-! ## Header blocks -/

theorem readHeadersLoop_lines (ct : Nat → Nat) (tail : Str) :
    ∀ (raws : List Str) (m : Headers), (∀ raw ∈ raws, 0x0A ∉ raw ∧ lineOf raw ≠ []) →
      readHeadersLoop ct (block raws ++ tail).length m (block raws ++ tail)
        = readHeadersLoop ct tail.length ((raws.map lineOf).foldl (storeLine ct) m) tail
  | [], m, _ => by simp [block]
  | raw :: raws, m, h => by
    have h1 := h raw (by simp)
    have ih := readHeadersLoop_lines ct tail raws (storeLine ct m (lineOf raw))
      (fun x hx => h x (by simp [hx]))
    rw [readHeadersLoop_step, block_cons, readLine_raw raw _ h1.1]
    simp only [h1.2, if_false, ih, List.map_cons, List.foldl_cons]

theorem storeLine_malformed (ct : Nat → Nat) (m : Headers) (line : Str)
    (h : 0x3A ∉ line ∨ line.head? = some 0x3A) : storeLine ct m line = m := by
  have : wellFormed line = false := by
    match line, h with
    | [], _ => rfl
    | b :: t, .inl h => simp at h; simp [wellFormed, h.2]
    | b :: t, .inr h => simp at h; simp [wellFormed, h]
  simp [storeLine, this]

theorem foldl_storeLine_nodup (ct : Nat → Nat) : ∀ (lines : List Str) (m : Headers),
    ((lines.filter wellFormed).map (headerName ct)).Nodup →
    (∀ line ∈ lines, wellFormed line = true → headerName ct line ∉ m.map Prod.fst) →
      lines.foldl (storeLine ct) m
        = ((lines.filter wellFormed).map fun l => (headerName ct l, headerValue l)).reverse ++ m
  | [], m, _, _ => by simp
  | line :: lines, m, hn, hd => by
    cases hw : wellFormed line with
    | false =>
      have ih := foldl_storeLine_nodup ct lines m (by simpa [List.filter, hw] using hn)
        (fun l hl => hd l (by simp [hl]))
      simp [List.filter, hw, storeLine, ih]
    | true =>
      simp only [List.filter, hw, List.map_cons, List.nodup_cons] at hn
      have hfresh := hd line (by simp) hw
      have hset : m.set (headerName ct line) (headerValue line)
          = (headerName ct line, headerValue line) :: m := by
        simp only [Headers.set, List.cons.injEq, true_and]
        apply List.filter_eq_self.2
        intro p hp
        have : p.1 ≠ headerName ct line := fun e => hfresh (e ▸ List.mem_map.2 ⟨p, hp, rfl⟩)
        simpa using this
      have ih := foldl_storeLine_nodup ct lines ((headerName ct line, headerValue line) :: m) hn.2
        (by
          intro l hl hwl hmem
          simp only [List.map_cons, List.mem_cons] at hmem
          rcases hmem with e | hmem
          · exact hn.1 (List.mem_map.2 ⟨l, List.mem_filter.2 ⟨hl, hwl⟩, e⟩)
          · exact hd l (by simp [hl]) hwl hmem)
      simp [List.filter, hw, storeLine, hset, ih]

/-- C5: when two well-formed lines of a header block have the same name up to
letter case and surrounding white space, and no later well-formed line has it,
the map `readHeaders` returns holds for that name the trimmed value of the
last of them, and the keys of the map are pairwise distinct.  In particular
the block `X: 1\r\nX: 2\r\n\r\n` yields the map whose only entry is
`x -> 2`. -/
theorem readHeaders_duplicate (ct : Nat → Nat) (pre mid post : List Str)
    (fst lst blank rest : Str)
    (hraws : ∀ raw ∈ pre ++ fst :: (mid ++ lst :: post), 0x0A ∉ raw ∧ lineOf raw ≠ [])
    (hb : 0x0A ∉ blank) (hbl : lineOf blank = [])
    (_hfst : wellFormed (lineOf fst) = true) (hlst : wellFormed (lineOf lst) = true)
    (hsame : headerName ct (lineOf fst) = headerName ct (lineOf lst))
    (hpost : ∀ raw ∈ post, wellFormed (lineOf raw) = true →
      headerName ct (lineOf raw) ≠ headerName ct (lineOf lst)) :
    (∃ m, readHeaders ct (block (pre ++ fst :: (mid ++ lst :: post)) ++ (blank ++ 0x0A :: rest))
          = .ok (m, rest)
      ∧ m.get (headerName ct (lineOf fst)) = some (headerValue (lineOf lst))
      ∧ (m.map Prod.fst).Nodup)
    ∧ readHeaders ct (bytes "X: 1\r\nX: 2\r\n\r\n") = .ok ([(bytes "x", bytes "2")], []) := by
  refine ⟨⟨_, readHeadersLoop_block ct blank rest hb hbl _ [] hraws, ?_, ?_⟩, rfl⟩
  · rw [hsame]
    simp only [List.map_append, List.map_cons, List.foldl_append, List.foldl_cons]
    rw [get_foldl_other ct _ (post.map lineOf) _ (by
      intro line hl
      obtain ⟨raw, hr, rfl⟩ := List.mem_map.1 hl
      exact hpost raw hr)]
    simp [storeLine, hlst, get_set]
  · exact keys_foldl_storeLine ct _ [] (by simp)

/-- Witness of C5 on the lines `X: 1` and `X: 2` of the specification's
block: the lookup of `x` gives `2`. -/
theorem readHeaders_duplicate_witness :
    (∃ m, readHeaders id
          (block ([] ++ bytes "X: 1\r" :: ([] ++ bytes "X: 2\r" :: []))
            ++ (bytes "\r" ++ 0x0A :: []))
          = .ok (m, [])
      ∧ m.get (bytes "x") = some (bytes "2")
      ∧ (m.map Prod.fst).Nodup)
    ∧ readHeaders id (bytes "X: 1\r\nX: 2\r\n\r\n") = .ok ([(bytes "x", bytes "2")], []) :=
  readHeaders_duplicate id [] [] [] (bytes "X: 1\r") (bytes "X: 2\r") (bytes "\r") []
    (by decide) (by decide) (by decide) (by decide) (by decide) (by decide) (by decide)

/-- C6: two header blocks whose lines are permutations of one another, the
well-formed lines having pairwise distinct normalized names, give equal maps:
every lookup has the same result in both, and the two maps hold the same
entries. -/
theorem readHeaders_perm (ct : Nat → Nat) (raws1 raws2 : List Str)
    (blank1 blank2 rest1 rest2 : Str)
    (hperm : raws1.Perm raws2)
    (hraws : ∀ raw ∈ raws1, 0x0A ∉ raw ∧ lineOf raw ≠ [])
    (hb1 : 0x0A ∉ blank1) (hbl1 : lineOf blank1 = [])
    (hb2 : 0x0A ∉ blank2) (hbl2 : lineOf blank2 = [])
    (hdistinct : (((raws1.map lineOf).filter wellFormed).map (headerName ct)).Nodup) :
    ∃ m1 m2, readHeaders ct (block raws1 ++ (blank1 ++ 0x0A :: rest1)) = .ok (m1, rest1)
      ∧ readHeaders ct (block raws2 ++ (blank2 ++ 0x0A :: rest2)) = .ok (m2, rest2)
      ∧ (∀ k, m1.get k = m2.get k) ∧ m1.Perm m2 := by
  have hraws2 : ∀ raw ∈ raws2, 0x0A ∉ raw ∧ lineOf raw ≠ [] :=
    fun raw h => hraws raw (hperm.mem_iff.2 h)
  have hp : (((raws1.map lineOf).filter wellFormed)).Perm ((raws2.map lineOf).filter wellFormed) :=
    (hperm.map lineOf).filter _
  have hdistinct2 : (((raws2.map lineOf).filter wellFormed).map (headerName ct)).Nodup :=
    (hp.map (headerName ct)).nodup_iff.1 hdistinct
  have e1 := foldl_storeLine_nodup ct (raws1.map lineOf) [] hdistinct (by simp)
  have e2 := foldl_storeLine_nodup ct (raws2.map lineOf) [] hdistinct2 (by simp)
  have hpm : (List.foldl (storeLine ct) [] (raws1.map lineOf)).Perm
      (List.foldl (storeLine ct) [] (raws2.map lineOf)) := by
    rw [e1, e2, List.append_nil, List.append_nil]
    exact ((List.reverse_perm _).trans (hp.map _)).trans (List.reverse_perm _).symm
  have hn1 := keys_foldl_storeLine ct (raws1.map lineOf) [] (by simp)
  have hn2 := keys_foldl_storeLine ct (raws2.map lineOf) [] (by simp)
  refine ⟨_, _, readHeadersLoop_block ct blank1 rest1 hb1 hbl1 _ [] hraws,
    readHeadersLoop_block ct blank2 rest2 hb2 hbl2 _ [] hraws2, ?_, hpm⟩
  intro k
  apply Option.ext
  intro v
  simp only [Option.mem_def]
  rw [get_of_mem k v _ hn1, get_of_mem k v _ hn2]
  exact hpm.mem_iff

/-- Witness of C6 on the lines `A: 1`, `junk`, `B: 2` and a reordering of
them. -/
theorem readHeaders_perm_witness :
    ∃ m1 m2, readHeaders id (block [bytes "A: 1\r", bytes "junk", bytes "B: 2"]
          ++ (bytes "\r" ++ 0x0A :: bytes "x")) = .ok (m1, bytes "x")
      ∧ readHeaders id (block [bytes "B: 2", bytes "A: 1\r", bytes "junk"]
          ++ ([] ++ 0x0A :: [])) = .ok (m2, [])
      ∧ (∀ k, m1.get k = m2.get k) ∧ m1.Perm m2 :=
  readHeaders_perm id [bytes "A: 1\r", bytes "junk", bytes "B: 2"]
    [bytes "B: 2", bytes "A: 1\r", bytes "junk"] (bytes "\r") [] (bytes "x") []
    (by decide) (by decide) (by decide) (by decide) (by decide) (by decide) (by decide)

/-- C7: a line that reads as non-empty and has no `:` or starts with `:`,
inserted after any number of header lines, leaves the result of `readHeaders`
(the error, or the map and the stream left) unchanged. -/
theorem readHeaders_malformed_line (ct : Nat → Nat) (pre : List Str) (x tail : Str)
    (hpre : ∀ raw ∈ pre, 0x0A ∉ raw ∧ lineOf raw ≠ [])
    (hx : 0x0A ∉ x) (hne : lineOf x ≠ [])
    (hmal : 0x3A ∉ lineOf x ∨ (lineOf x).head? = some 0x3A) :
    readHeaders ct (block pre ++ (x ++ 0x0A :: tail)) = readHeaders ct (block pre ++ tail) := by
  unfold readHeaders
  rw [readHeadersLoop_lines ct _ pre [] hpre, readHeadersLoop_lines ct _ pre [] hpre,
    readHeadersLoop_step, readLine_raw x tail hx]
  simp only [hne, if_false, storeLine_malformed ct _ _ hmal]

/-- Witness of C7: the line `:bad` inserted between `A: 1` and `B: 2`. -/
theorem readHeaders_malformed_line_witness :
    readHeaders id (block [bytes "A: 1\r"] ++ (bytes ":bad\r" ++ 0x0A :: bytes "B: 2\r\n\r\nxy"))
      = readHeaders id (block [bytes "A: 1\r"] ++ bytes "B: 2\r\n\r\nxy") :=
  readHeaders_malformed_line id [bytes "A: 1\r"] (bytes ":bad\r") (bytes "B: 2\r\n\r\nxy")
    (by decide) (by decide) (by decide) (by decide)

/-- C9: on a stream that holds no `\n`, `readLine` fails with `io.EOF`; on a
stream that ends before a line reads as empty (lines that read as non-empty,
then text without `\n`), `readHeaders` fails with `io.EOF` and returns no
map. -/
theorem readHeaders_eof (ct : Nat → Nat) (raws : List Str) (tail : Str)
    (hraws : ∀ raw ∈ raws, 0x0A ∉ raw ∧ lineOf raw ≠ []) (ht : 0x0A ∉ tail) :
    readLine tail = .error Err.EOF
    ∧ readHeaders ct (block raws ++ tail) = .error Err.EOF := by
  refine ⟨readLine_no_newline tail ht, ?_⟩
  unfold readHeaders
  rw [readHeadersLoop_lines ct _ raws [] hraws, readHeadersLoop_step,
    readLine_no_newline tail ht]

/-- Witness of C9: the stream `Host: a\r\nAccept: b` ends inside the second
line. -/
theorem readHeaders_eof_witness :
    readLine (bytes "Accept: b") = .error Err.EOF
    ∧ readHeaders id (block [bytes "Host: a\r"] ++ bytes "Accept: b") = .error Err.EOF :=
  readHeaders_eof id [bytes "Host: a\r"] (bytes "Accept: b") (by decide) (by decide)

/-! ## The line reader on a run of carriage returns -/

/-- C8: on the stream `a\r\r\n`, `readLine` consumes the whole stream and
returns `a`: `strings.TrimRight` removes both `\r`, so the line followed by
`\r\n` or by `\n` is not the text consumed. -/
theorem readLine_carriage_returns :
    readLine (bytes "a\r\r\n") = .ok (bytes "a", [])
    ∧ bytes "a" ++ bytes "\r\n" ≠ bytes "a\r\r\n"
    ∧ bytes "a" ++ bytes "\n" ≠ bytes "a\r\r\n" := by
  decide

/-! ## The request body -/

/-- Within the allocation limit: when the header map holds `content-length`
with a value that `strconv.Atoi` reads, after trimming, as `n >= 0`, and
`make([]byte, n)` succeeds: if at least `n` bytes follow the blank line, the
body of the request is the first `n` of them and `handleConn` dispatches the
request with that body; if fewer follow, reading the body fails and
`handleConn` writes the 400 response with the body `Could not read body\n`. -/
theorem handleConn_body (ct : Nat → Nat) (allocLimit : Nat)
    (conn startLine r1 method path version : Str)
    (headers : Headers) (r2 clStr : Str) (n : Int)
    (hstart : readLine conn = .ok (startLine, r1)) (hne : startLine ≠ [])
    (hparse : parseStartLine startLine = .ok (method, path, version))
    (hheaders : readHeaders ct r1 = .ok (headers, r2))
    (hcl : headers.get (bytes "content-length") = some clStr)
    (hatoi : Atoi (TrimSpace clStr) = .ok n) (hn : 0 ≤ n) (hlim : n.toNat ≤ allocLimit) :
    (n.toNat ≤ r2.length →
        readBody allocLimit headers r2 = .ok (r2.take n.toNat)
        ∧ handleConn ct allocLimit conn
            = route { Method := method, Path := path, Version := version,
                      Headers := headers, Body := r2.take n.toNat })
    ∧ (r2.length < n.toNat →
        readBody allocLimit headers r2 = .badRequest (bytes "Could not read body")
        ∧ handleConn ct allocLimit conn
            = writeResponse 400 (bytes "Bad Request") (bytes "text/plain; charset=utf-8")
                (bytes "Could not read body\n")) := by
  have hn2 : ¬ n < 0 := by omega
  have hlim2 : ¬ allocLimit < n.toNat := by omega
  constructor
  · intro hlen
    have hb : readBody allocLimit headers r2 = .ok (r2.take n.toNat) := by
      simp [readBody, hcl, hatoi, hn2, hlim2, ReadFull, hlen]
    exact ⟨hb, by simp [handleConn, hstart, hne, hparse, hheaders, hb]⟩
  · intro hlen
    have hlen2 : ¬ n.toNat ≤ r2.length := by omega
    have hb : readBody allocLimit headers r2 = .badRequest (bytes "Could not read body") := by
      unfold readBody
      simp only [hcl, hatoi, hn2, hlim2, if_false, ReadFull, hlen2]
      by_cases hr : r2 = []
      · simp only [hr, if_true]
      · simp only [hr, if_false]
    refine ⟨hb, ?_⟩
    have e : bytes "Could not read body" ++ bytes "\n" = bytes "Could not read body\n" := by
      decide
    simp [handleConn, hstart, hne, hparse, hheaders, hb, writeSimpleResponse, e]

/-- The spec's example within the limit: `Content-Length: 5` followed by exactly
the 5 bytes `hello` is echoed with those 5 bytes; followed by the 4 bytes `hell`
it is answered with the 400 response. -/
theorem handleConn_body_witness :
    handleConn id maxAlloc (bytes "POST /echo HTTP/1.1\r\nContent-Length: 5\r\n\r\nhello")
        = writeResponse 200 (bytes "OK") (bytes "application/octet-stream") (bytes "hello")
    ∧ handleConn id maxAlloc (bytes "POST /echo HTTP/1.1\r\nContent-Length: 5\r\n\r\nhell")
        = writeResponse 400 (bytes "Bad Request") (bytes "text/plain; charset=utf-8")
            (bytes "Could not read body\n") :=
  ⟨((handleConn_body id maxAlloc (bytes "POST /echo HTTP/1.1\r\nContent-Length: 5\r\n\r\nhello")
      (bytes "POST /echo HTTP/1.1") (bytes "Content-Length: 5\r\n\r\nhello")
      (bytes "POST") (bytes "/echo") (bytes "HTTP/1.1")
      [(bytes "content-length", bytes "5")] (bytes "hello") (bytes "5") 5
      (by decide) (by decide) (by decide) (by decide) (by decide) (by decide) (by decide)
      (by decide)).1 (by decide)).2.trans (by decide),
   ((handleConn_body id maxAlloc (bytes "POST /echo HTTP/1.1\r\nContent-Length: 5\r\n\r\nhell")
      (bytes "POST /echo HTTP/1.1") (bytes "Content-Length: 5\r\n\r\nhell")
      (bytes "POST") (bytes "/echo") (bytes "HTTP/1.1")
      [(bytes "content-length", bytes "5")] (bytes "hell") (bytes "5") 5
      (by decide) (by decide) (by decide) (by decide) (by decide) (by decide) (by decide)
      (by decide)).2 (by decide)).2⟩

/-- Above the allocation limit: when the header map holds `content-length`
with a value that `strconv.Atoi` reads, after trimming, as `n >= 0` for which
`make([]byte, n)` does not succeed, step 3 ends in the panic and `handleConn`
writes nothing, whatever follows the blank line. -/
theorem handleConn_body_panic (ct : Nat → Nat) (allocLimit : Nat)
    (conn startLine r1 method path version : Str)
    (headers : Headers) (r2 clStr : Str) (n : Int)
    (hstart : readLine conn = .ok (startLine, r1)) (hne : startLine ≠ [])
    (hparse : parseStartLine startLine = .ok (method, path, version))
    (hheaders : readHeaders ct r1 = .ok (headers, r2))
    (hcl : headers.get (bytes "content-length") = some clStr)
    (hatoi : Atoi (TrimSpace clStr) = .ok n) (hn : 0 ≤ n) (hlim : allocLimit < n.toNat) :
    (∀ r, readBody allocLimit headers r = .panic) ∧ handleConn ct allocLimit conn = [] := by
  have hn2 : ¬ n < 0 := by omega
  have hb : ∀ r, readBody allocLimit headers r = .panic := by
    intro r
    simp [readBody, hcl, hatoi, hn2, hlim]
  exact ⟨hb, by simp [handleConn, hstart, hne, hparse, hheaders, hb r2]⟩

/-- C10: on the stream `POST /echo` with `Content-Length: 9223372036854775807`
followed by the 3 bytes `abc`, the header holds a value that `strconv.Atoi`
reads as a non-negative `int` and fewer bytes follow, yet `handleConn` does not
write the 400 response with the body `Could not read body\n`:
`make([]byte, cl)` panics before a byte is read and nothing is written. -/
theorem handleConn_oversized_content_length :
    Atoi (TrimSpace (bytes "9223372036854775807")) = .ok 9223372036854775807
    ∧ readHeaders id (bytes "Content-Length: 9223372036854775807\r\n\r\nabc")
        = .ok ([(bytes "content-length", bytes "9223372036854775807")], bytes "abc")
    ∧ readBody maxAlloc [(bytes "content-length", bytes "9223372036854775807")] (bytes "abc")
        = .panic
    ∧ handleConn id maxAlloc
        (bytes "POST /echo HTTP/1.1\r\nContent-Length: 9223372036854775807\r\n\r\nabc") = []
    ∧ handleConn id maxAlloc
        (bytes "POST /echo HTTP/1.1\r\nContent-Length: 9223372036854775807\r\n\r\nabc")
        ≠ writeResponse 400 (bytes "Bad Request") (bytes "text/plain; charset=utf-8")
            (bytes "Could not read body\n") := by
  decide

/-! ## Decimal numerals -/

theorem digitChar_toNat (d : Nat) (h : d < 10) : (Nat.digitChar d).toNat = 0x30 + d := by
  interval_cases d <;> rfl

theorem decimalValue_cons (d : Nat) (s : Str) :
    decimalValue (d :: s) = (d - 0x30) * 10 ^ s.length + decimalValue s := by
  have key : ∀ (s : Str) (a : Nat),
      s.foldl (fun acc d => acc * 10 + (d - 0x30)) a
        = a * 10 ^ s.length + s.foldl (fun acc d => acc * 10 + (d - 0x30)) 0 := by
    intro s
    induction s with
    | nil => intro a; simp
    | cons x s ih =>
      intro a
      simp only [List.foldl_cons, List.length_cons, Nat.zero_mul, Nat.zero_add]
      rw [ih (a * 10 + (x - 0x30)), ih (x - 0x30)]
      ring
  simp only [decimalValue, List.foldl_cons, Nat.zero_mul, Nat.zero_add]
  rw [key s (d - 0x30)]

theorem toDigitsCore_digits : ∀ (fuel n : Nat) (ds : List Char),
    (∀ c ∈ ds, 0x30 ≤ c.toNat ∧ c.toNat ≤ 0x39) →
      ∀ c ∈ Nat.toDigitsCore 10 fuel n ds, 0x30 ≤ c.toNat ∧ c.toNat ≤ 0x39
  | 0, n, ds, h => by simpa [Nat.toDigitsCore] using h
  | fuel + 1, n, ds, h => by
    have hd : 0x30 ≤ (Nat.digitChar (n % 10)).toNat ∧ (Nat.digitChar (n % 10)).toNat ≤ 0x39 := by
      rw [digitChar_toNat _ (Nat.mod_lt _ (by decide))]
      have := Nat.mod_lt n (show 0 < 10 by decide)
      omega
    have h2 : ∀ c ∈ Nat.digitChar (n % 10) :: ds, 0x30 ≤ c.toNat ∧ c.toNat ≤ 0x39 := by
      intro c hc
      rcases List.mem_cons.1 hc with rfl | hc
      · exact hd
      · exact h c hc
    rw [Nat.toDigitsCore]
    split
    · exact h2
    · exact toDigitsCore_digits fuel (n / 10) _ h2

theorem toDigitsCore_value : ∀ (fuel n : Nat) (ds : List Char), n < fuel →
    decimalValue ((Nat.toDigitsCore 10 fuel n ds).map Char.toNat)
      = n * 10 ^ ds.length + decimalValue (ds.map Char.toNat)
  | 0, n, ds, h => by omega
  | fuel + 1, n, ds, h => by
    have hd := digitChar_toNat (n % 10) (Nat.mod_lt _ (by decide))
    have hv : decimalValue ((Nat.digitChar (n % 10) :: ds).map Char.toNat)
        = (n % 10) * 10 ^ ds.length + decimalValue (ds.map Char.toNat) := by
      rw [List.map_cons, decimalValue_cons, hd]
      simp
    rw [Nat.toDigitsCore]
    split
    · rename_i h0
      rw [hv]
      have : n % 10 = n := by omega
      rw [this]
    · rename_i h0
      have hlt : n / 10 < fuel := by omega
      rw [toDigitsCore_value fuel (n / 10) _ hlt, hv, List.length_cons, pow_succ]
      have e : n * 10 ^ ds.length = (10 * (n / 10) + n % 10) * 10 ^ ds.length := by
        rw [Nat.div_add_mod n 10]
      rw [e]
      ring

theorem toDigitsCore_head : ∀ (fuel n : Nat) (ds : List Char), n < fuel → n ≠ 0 →
    ∃ c rest, Nat.toDigitsCore 10 fuel n ds = c :: rest ∧ c.toNat ≠ 0x30
  | 0, n, ds, h, _ => by omega
  | fuel + 1, n, ds, h, hn => by
    rw [Nat.toDigitsCore]
    split
    · rename_i h0
      refine ⟨_, _, rfl, ?_⟩
      rw [digitChar_toNat _ (Nat.mod_lt _ (by decide))]
      omega
    · rename_i h0
      exact toDigitsCore_head fuel (n / 10) _ (by omega) h0

theorem fmtInt_digits (n : Nat) : ∀ d ∈ fmtInt n, 0x30 ≤ d ∧ d ≤ 0x39 := by
  intro d hd
  simp only [fmtInt, Nat.toDigits, List.mem_map] at hd
  obtain ⟨c, hc, rfl⟩ := hd
  exact toDigitsCore_digits (n + 1) n [] (by simp) c hc

theorem fmtInt_isDecimal (n : Nat) : isDecimal (fmtInt n) n = true := by
  have hdig := fmtInt_digits n
  have hval : decimalValue (fmtInt n) = n := by
    have := toDigitsCore_value (n + 1) n [] (by omega)
    simpa [fmtInt, Nat.toDigits, decimalValue] using this
  by_cases hn : n = 0
  · subst hn
    decide
  · obtain ⟨c, rest, hc, h0⟩ := toDigitsCore_head (n + 1) n [] (by omega) hn
    have hf : fmtInt n = c.toNat :: rest.map Char.toNat := by
      simp [fmtInt, Nat.toDigits, hc]
    have hall : (fmtInt n).all (fun d => decide (0x30 ≤ d) && decide (d ≤ 0x39)) = true := by
      rw [List.all_eq_true]
      intro d hd
      have := hdig d hd
      simp [this.1, this.2]
    simp only [isDecimal, hall, hval, beq_self_eq_true, Bool.and_true, Bool.true_and]
    rw [hf]
    simp [h0]

theorem fmtInt_no_newline (n : Nat) : 0x0A ∉ fmtInt n := by
  intro h
  have := fmtInt_digits n _ h
  omega

theorem fmtInt_head (n : Nat) : (fmtInt n).head? ≠ some 0x0A ∧ (fmtInt n).head? ≠ some 0x0D := by
  constructor
  · intro h
    have := fmtInt_digits n _ (List.mem_of_mem_head? h)
    omega
  · intro h
    have := fmtInt_digits n _ (List.mem_of_mem_head? h)
    omega

/-! ## The blank line of a response -/

theorem take_four_head (b : Nat) (l : Str)
    (h : (b :: l).take 4 = [0x0D, 0x0A, 0x0D, 0x0A]) : b = 0x0D ∧ l.head? = some 0x0A := by
  match l with
  | [] => simp at h
  | c :: l => simp at h; simp [h.1, h.2.1]

theorem splitBlankLine_skip (rest : Str) (hr : rest.head? ≠ some 0x0A) :
    ∀ (x : Str), 0x0A ∉ x →
      splitBlankLine (x ++ rest)
        = match splitBlankLine rest with
          | none => none
          | some (before, after) => some (x ++ before, after)
  | [], _ => by
    cases hs : splitBlankLine rest with
    | none => simp [hs]
    | some v => simp [hs]
  | b :: x, h => by
    have hx : 0x0A ∉ x := fun e => h (List.mem_cons_of_mem _ e)
    have ih := splitBlankLine_skip rest hr x hx
    have hno : ¬ (b :: (x ++ rest)).take 4 = [0x0D, 0x0A, 0x0D, 0x0A] := by
      intro e
      have h2 := (take_four_head b _ e).2
      match x, h with
      | [], _ => exact hr h2
      | c :: x, h =>
        simp at h2
        exact h (by simp [h2])
    rw [List.cons_append, splitBlankLine]
    simp only [hno, if_false, ih]
    cases splitBlankLine rest with
    | none => rfl
    | some v => rfl

theorem splitBlankLine_crlf (y : Str) (hy : y.head? ≠ some 0x0D) :
    splitBlankLine (0x0D :: 0x0A :: y)
      = match splitBlankLine y with
        | none => none
        | some (before, after) => some (0x0D :: 0x0A :: before, after) := by
  have h1 : ¬ (0x0D :: 0x0A :: y).take 4 = [0x0D, 0x0A, 0x0D, 0x0A] := by
    intro e
    match y, hy with
    | [], _ => simp at e
    | c :: y, hy => simp at e; exact hy (by simp [e.1])
  have h2 : ¬ (0x0A :: y).take 4 = [0x0D, 0x0A, 0x0D, 0x0A] := by
    intro e
    have := (take_four_head _ _ e).1
    omega
  rw [splitBlankLine]
  simp only [h1, if_false]
  rw [splitBlankLine]
  simp only [h2, if_false]
  cases splitBlankLine y with
  | none => rfl
  | some v => rfl

theorem splitBlankLine_line (x y : Str) (hx : 0x0A ∉ x) (hy : y.head? ≠ some 0x0D) :
    splitBlankLine (x ++ 0x0D :: 0x0A :: y)
      = match splitBlankLine y with
        | none => none
        | some (before, after) => some (x ++ 0x0D :: 0x0A :: before, after) := by
  rw [splitBlankLine_skip _ (by simp) x hx, splitBlankLine_crlf y hy]
  cases splitBlankLine y with
  | none => rfl
  | some v => rfl

theorem splitBlankLine_last (x body : Str) (hx : 0x0A ∉ x) :
    splitBlankLine (x ++ 0x0D :: 0x0A :: 0x0D :: 0x0A :: body) = some (x, body) := by
  rw [splitBlankLine_skip _ (by simp) x hx]
  simp [splitBlankLine]

theorem splitCRLF_line (y : Str) : ∀ (x : Str), 0x0A ∉ x →
    splitCRLF (x ++ 0x0D :: 0x0A :: y) = x :: splitCRLF y
  | [], _ => by simp [splitCRLF]
  | [b], _ => by simp [splitCRLF]
  | b :: c :: x, h => by
    have hc : c ≠ 0x0A := fun e => h (by simp [e])
    have ih := splitCRLF_line y (c :: x) (fun e => h (List.mem_cons_of_mem _ e))
    rw [List.cons_append] at ih
    simp only [List.cons_append, splitCRLF, hc, and_false, if_false, List.append_eq, ih]

theorem splitCRLF_last : ∀ (x : Str), 0x0A ∉ x → splitCRLF x = [x]
  | [], _ => rfl
  | [b], _ => rfl
  | b :: c :: x, h => by
    have hc : c ≠ 0x0A := fun e => h (by simp [e])
    have ih := splitCRLF_last (c :: x) (fun e => h (List.mem_cons_of_mem _ e))
    simp only [splitCRLF, hc, and_false, if_false, ih]

theorem writeResponse_nested (status : Nat) (statusText contentType body : Str) :
    writeResponse status statusText contentType body
      = (bytes "HTTP/1.1 " ++ fmtInt status ++ bytes " " ++ statusText) ++ 0x0D :: 0x0A ::
          ((bytes "Content-Type: " ++ contentType) ++ 0x0D :: 0x0A ::
            ((bytes "Content-Length: " ++ fmtInt body.length) ++ 0x0D :: 0x0A ::
              (bytes "Connection: close" ++ 0x0D :: 0x0A :: 0x0D :: 0x0A :: body))) := by
  have e1 : bytes "\r\n" = [0x0D, 0x0A] := by decide
  have e2 : bytes "Connection: close\r\n" = bytes "Connection: close" ++ [0x0D, 0x0A] := by decide
  simp only [writeResponse, e1, e2, List.append_assoc, List.cons_append, List.nil_append]

theorem writeResponse_split (status : Nat) (statusText contentType body : Str)
    (ht : 0x0A ∉ statusText) (hc : 0x0A ∉ contentType) :
    ∃ hdr, splitBlankLine (writeResponse status statusText contentType body) = some (hdr, body)
      ∧ splitCRLF hdr = [bytes "HTTP/1.1 " ++ fmtInt status ++ bytes " " ++ statusText,
          bytes "Content-Type: " ++ contentType,
          bytes "Content-Length: " ++ fmtInt body.length,
          bytes "Connection: close"] := by
  have h1 : 0x0A ∉ bytes "HTTP/1.1 " ++ fmtInt status ++ bytes " " ++ statusText := by
    simp only [List.mem_append, not_or]
    exact ⟨⟨⟨by decide, fmtInt_no_newline _⟩, by decide⟩, ht⟩
  have h2 : 0x0A ∉ bytes "Content-Type: " ++ contentType := by
    simp only [List.mem_append, not_or]
    exact ⟨by decide, hc⟩
  have h3 : 0x0A ∉ bytes "Content-Length: " ++ fmtInt body.length := by
    simp only [List.mem_append, not_or]
    exact ⟨by decide, fmtInt_no_newline _⟩
  have h4 : 0x0A ∉ bytes "Connection: close" := by decide
  have g2 : (bytes "Content-Type: " ++ contentType ++ 0x0D :: 0x0A ::
      ((bytes "Content-Length: " ++ fmtInt body.length) ++ 0x0D :: 0x0A ::
        (bytes "Connection: close" ++ 0x0D :: 0x0A :: 0x0D :: 0x0A :: body))).head? ≠ some 0x0D := by
    have : bytes "Content-Type: " = 67 :: bytes "ontent-Type: " := by decide
    rw [this]; simp
  have g3 : ((bytes "Content-Length: " ++ fmtInt body.length) ++ 0x0D :: 0x0A ::
        (bytes "Connection: close" ++ 0x0D :: 0x0A :: 0x0D :: 0x0A :: body)).head? ≠ some 0x0D := by
    have : bytes "Content-Length: " = 67 :: bytes "ontent-Length: " := by decide
    rw [this]; simp
  have g4 : (bytes "Connection: close" ++ 0x0D :: 0x0A :: 0x0D :: 0x0A :: body).head?
      ≠ some 0x0D := by
    have : bytes "Connection: close" = 67 :: bytes "onnection: close" := by decide
    rw [this]; simp
  refine ⟨(bytes "HTTP/1.1 " ++ fmtInt status ++ bytes " " ++ statusText) ++ 0x0D :: 0x0A ::
          ((bytes "Content-Type: " ++ contentType) ++ 0x0D :: 0x0A ::
            ((bytes "Content-Length: " ++ fmtInt body.length) ++ 0x0D :: 0x0A ::
              bytes "Connection: close")), ?_, ?_⟩
  · rw [writeResponse_nested, splitBlankLine_line _ _ h1 g2, splitBlankLine_line _ _ h2 g3,
      splitBlankLine_line _ _ h3 g4, splitBlankLine_last _ _ h4]
  · rw [splitCRLF_line _ _ h1, splitCRLF_line _ _ h2, splitCRLF_line _ _ h3,
      splitCRLF_last _ h4]

/-! ## Telling responses apart -/

theorem bytes_http : bytes "HTTP/1.1 " = [72, 84, 84, 80, 47, 49, 46, 49, 32] := by decide

theorem writeResponse_200_ne_400 (t c b t' c' b' : Str) :
    writeResponse 200 t c b ≠ writeResponse 400 t' c' b' := by
  intro h
  have e2 : fmtInt 200 = [50, 48, 48] := by decide
  have e4 : fmtInt 400 = [52, 48, 48] := by decide
  simp [writeResponse, bytes_http, e2, e4] at h

theorem writeResponse_404_ne_400 (t c b t' c' b' : Str) :
    writeResponse 404 t c b ≠ writeResponse 400 t' c' b' := by
  intro h
  have e2 : fmtInt 404 = [52, 48, 52] := by decide
  have e4 : fmtInt 400 = [52, 48, 48] := by decide
  simp [writeResponse, bytes_http, e2, e4] at h

theorem writeResponse_ne_nil (st : Nat) (t c b : Str) : writeResponse st t c b ≠ [] := by
  simp [writeResponse, bytes_http]

theorem route_ne_400 (req : Request) (t c b : Str) : route req ≠ writeResponse 400 t c b := by
  unfold route
  split_ifs
  · exact writeResponse_200_ne_400 _ _ _ _ _ _
  · exact writeResponse_200_ne_400 _ _ _ _ _ _
  · exact writeResponse_200_ne_400 _ _ _ _ _ _
  · exact writeResponse_404_ne_400 _ _ _ _ _ _

/-! ## Content-Length -/

theorem handleConn_body_error (ct : Nat → Nat) (allocLimit : Nat)
    (conn startLine r1 method path version : Str) (headers : Headers) (r2 msg : Str)
    (hstart : readLine conn = .ok (startLine, r1)) (hne : startLine ≠ [])
    (hparse : parseStartLine startLine = .ok (method, path, version))
    (hheaders : readHeaders ct r1 = .ok (headers, r2))
    (hbody : readBody allocLimit headers r2 = .badRequest msg) :
    handleConn ct allocLimit conn = writeSimpleResponse 400 (bytes "Bad Request") msg := by
  simp [handleConn, hstart, hne, hparse, hheaders, hbody]

theorem handleConn_body_panicked (ct : Nat → Nat) (allocLimit : Nat)
    (conn startLine r1 method path version : Str) (headers : Headers) (r2 : Str)
    (hstart : readLine conn = .ok (startLine, r1)) (hne : startLine ≠ [])
    (hparse : parseStartLine startLine = .ok (method, path, version))
    (hheaders : readHeaders ct r1 = .ok (headers, r2))
    (hbody : readBody allocLimit headers r2 = .panic) :
    handleConn ct allocLimit conn = [] := by
  simp [handleConn, hstart, hne, hparse, hheaders, hbody]

theorem handleConn_body_ok (ct : Nat → Nat) (allocLimit : Nat)
    (conn startLine r1 method path version : Str) (headers : Headers) (r2 body : Str)
    (hstart : readLine conn = .ok (startLine, r1)) (hne : startLine ≠ [])
    (hparse : parseStartLine startLine = .ok (method, path, version))
    (hheaders : readHeaders ct r1 = .ok (headers, r2))
    (hbody : readBody allocLimit headers r2 = .ok body) :
    handleConn ct allocLimit conn
      = route { Method := method, Path := path, Version := version,
                Headers := headers, Body := body } := by
  simp [handleConn, hstart, hne, hparse, hheaders, hbody]

/-- C11: for a request with a well-formed start line and terminated headers
that hold `content-length`, `handleConn` writes the 400 response with the body
`Invalid Content-Length\n` exactly when `strconv.Atoi` fails on the trimmed
value or returns a negative integer; in that case reading the body fails on
every stream, without a byte being read. -/
theorem handleConn_invalid_content_length (ct : Nat → Nat) (allocLimit : Nat)
    (conn startLine r1 method path version : Str) (headers : Headers) (r2 clStr : Str)
    (hstart : readLine conn = .ok (startLine, r1)) (hne : startLine ≠ [])
    (hparse : parseStartLine startLine = .ok (method, path, version))
    (hheaders : readHeaders ct r1 = .ok (headers, r2))
    (hcl : headers.get (bytes "content-length") = some clStr) :
    (handleConn ct allocLimit conn
        = writeResponse 400 (bytes "Bad Request") (bytes "text/plain; charset=utf-8")
            (bytes "Invalid Content-Length\n")
      ↔ ((∃ e, Atoi (TrimSpace clStr) = .error e) ∨ ∃ n, Atoi (TrimSpace clStr) = .ok n ∧ n < 0))
    ∧ (((∃ e, Atoi (TrimSpace clStr) = .error e) ∨ ∃ n, Atoi (TrimSpace clStr) = .ok n ∧ n < 0) →
        ∀ r, readBody allocLimit headers r = .badRequest (bytes "Invalid Content-Length")) := by
  have e : bytes "Invalid Content-Length" ++ bytes "\n" = bytes "Invalid Content-Length\n" := by
    decide
  have hce := fun msg => handleConn_body_error ct allocLimit conn startLine r1 method path
    version headers r2 msg hstart hne hparse hheaders
  have hco := fun body => handleConn_body_ok ct allocLimit conn startLine r1 method path
    version headers r2 body hstart hne hparse hheaders
  have hcp := handleConn_body_panicked ct allocLimit conn startLine r1 method path
    version headers r2 hstart hne hparse hheaders
  cases ha : Atoi (TrimSpace clStr) with
  | error err =>
    have hb : ∀ r, readBody allocLimit headers r
        = .badRequest (bytes "Invalid Content-Length") := by
      intro r; simp [readBody, hcl, ha]
    refine ⟨⟨fun _ => .inl ⟨err, rfl⟩, fun _ => ?_⟩, fun _ => hb⟩
    rw [hce _ (hb r2), writeSimpleResponse, e]
  | ok n =>
    by_cases hn : n < 0
    · have hb : ∀ r, readBody allocLimit headers r
          = .badRequest (bytes "Invalid Content-Length") := by
        intro r; simp [readBody, hcl, ha, hn]
      refine ⟨⟨fun _ => .inr ⟨n, rfl, hn⟩, fun _ => ?_⟩, fun _ => hb⟩
      rw [hce _ (hb r2), writeSimpleResponse, e]
    · have hfalse : ¬ ((∃ e, (Except.ok n : Except Err Int) = .error e)
          ∨ ∃ m, (Except.ok n : Except Err Int) = .ok m ∧ m < 0) := by
        rintro (⟨e, he⟩ | ⟨m, hm, hlt⟩)
        · cases he
        · cases hm; exact hn hlt
      refine ⟨⟨fun h => absurd ?_ hfalse, fun h => absurd h hfalse⟩, fun h => absurd h hfalse⟩
      exfalso
      cases hb : readBody allocLimit headers r2 with
      | panic =>
        rw [hcp hb] at h
        exact writeResponse_ne_nil _ _ _ _ h.symm
      | badRequest msg =>
        have hmsg : msg = bytes "Could not read body" := by
          unfold readBody at hb
          simp only [hcl, ha, hn, if_false] at hb
          by_cases hlim : allocLimit < n.toNat
          · simp [hlim] at hb
          · simp only [hlim, if_false] at hb
            cases hr : ReadFull r2 n.toNat with
            | error e1 => simp [hr] at hb; exact hb.symm
            | ok v => simp [hr] at hb
        rw [hce _ hb, hmsg] at h
        revert h
        decide
      | ok body =>
        rw [hco _ hb] at h
        exact route_ne_400 _ _ _ _ h

/-- Witness of C11: the values `-1`, `abc` and `9223372036854775808` are
answered with the 400 response, the value `+7` is not. -/
theorem handleConn_invalid_content_length_witness :
    handleConn id maxAlloc (bytes "POST /echo HTTP/1.1\r\nContent-Length: -1 \r\n\r\nxyz")
        = writeResponse 400 (bytes "Bad Request") (bytes "text/plain; charset=utf-8")
            (bytes "Invalid Content-Length\n")
    ∧ handleConn id maxAlloc (bytes "POST /echo HTTP/1.1\r\nContent-Length: abc\r\n\r\nxyz")
        = writeResponse 400 (bytes "Bad Request") (bytes "text/plain; charset=utf-8")
            (bytes "Invalid Content-Length\n")
    ∧ handleConn id maxAlloc (bytes "GET / HTTP/1.1\r\nContent-Length: 9223372036854775808\r\n\r\n")
        = writeResponse 400 (bytes "Bad Request") (bytes "text/plain; charset=utf-8")
            (bytes "Invalid Content-Length\n")
    ∧ handleConn id maxAlloc (bytes "POST /echo HTTP/1.1\r\nContent-Length: +7\r\n\r\n1234567")
        = writeResponse 200 (bytes "OK") (bytes "application/octet-stream") (bytes "1234567") :=
  ⟨(handleConn_invalid_content_length id maxAlloc
      (bytes "POST /echo HTTP/1.1\r\nContent-Length: -1 \r\n\r\nxyz")
      (bytes "POST /echo HTTP/1.1") (bytes "Content-Length: -1 \r\n\r\nxyz")
      (bytes "POST") (bytes "/echo") (bytes "HTTP/1.1")
      [(bytes "content-length", bytes "-1")] (bytes "xyz") (bytes "-1")
      (by decide) (by decide) (by decide) (by decide) (by decide)).1.2
      (.inr ⟨-1, by decide, by decide⟩),
   by decide, by decide, by decide⟩

theorem route_post_echo (req : Request) (hm : req.Method = bytes "POST")
    (hp : req.Path = bytes "/echo") : route req = echo req := by
  have h1 : ¬ bytes "POST" = bytes "GET" := by decide
  simp [route, hm, hp, h1]

/-- C12: when the headers of a request do not hold `content-length`, whatever
bytes follow the blank line, reading the body reads nothing and gives the empty
body, and `handleConn` dispatches the request with the empty body; for
`POST /echo` it writes the 200 response with `Content-Length: 0` and no
body. -/
theorem handleConn_without_content_length (ct : Nat → Nat) (allocLimit : Nat)
    (startRaw method path version : Str) (raws : List Str) (blank rest : Str)
    (hs : 0x0A ∉ startRaw)
    (hparse : parseStartLine (lineOf startRaw) = .ok (method, path, version))
    (hraws : ∀ raw ∈ raws, 0x0A ∉ raw ∧ lineOf raw ≠ [])
    (hb : 0x0A ∉ blank) (hbl : lineOf blank = [])
    (hcl : ((raws.map lineOf).foldl (storeLine ct) []).get (bytes "content-length") = none) :
    (∀ r, readBody allocLimit ((raws.map lineOf).foldl (storeLine ct) []) r = .ok [])
    ∧ handleConn ct allocLimit (startRaw ++ 0x0A :: (block raws ++ (blank ++ 0x0A :: rest)))
        = route { Method := method, Path := path, Version := version,
                  Headers := (raws.map lineOf).foldl (storeLine ct) [], Body := [] }
    ∧ (method = bytes "POST" → path = bytes "/echo" →
        ∃ contentType,
          handleConn ct allocLimit (startRaw ++ 0x0A :: (block raws ++ (blank ++ 0x0A :: rest)))
            = bytes "HTTP/1.1 200 OK\r\nContent-Type: " ++ contentType
                ++ bytes "\r\nContent-Length: 0\r\nConnection: close\r\n\r\n") := by
  have hbody : ∀ r, readBody allocLimit ((raws.map lineOf).foldl (storeLine ct) []) r = .ok [] := by
    intro r; simp [readBody, hcl]
  have hne : lineOf startRaw ≠ [] := by
    intro e
    have h0 : parseStartLine [] = .error Err.invalidStartLine := rfl
    rw [e, h0] at hparse
    cases hparse
  have hh : handleConn ct allocLimit (startRaw ++ 0x0A :: (block raws ++ (blank ++ 0x0A :: rest)))
      = route { Method := method, Path := path, Version := version,
                Headers := (raws.map lineOf).foldl (storeLine ct) [], Body := [] } :=
    handleConn_body_ok ct allocLimit _ _ _ method path version _ rest []
      (readLine_raw startRaw _ hs) hne hparse
      (readHeadersLoop_block ct blank rest hb hbl raws [] hraws) (hbody rest)
  refine ⟨hbody, hh, ?_⟩
  intro hm hp
  refine ⟨if ((List.foldl (storeLine ct) [] (raws.map lineOf)).get (bytes "content-type")).getD []
      = [] then bytes "application/octet-stream"
    else ((List.foldl (storeLine ct) [] (raws.map lineOf)).get (bytes "content-type")).getD [], ?_⟩
  have e1 : bytes "HTTP/1.1 200 OK\r\nContent-Type: "
      = bytes "HTTP/1.1 " ++ fmtInt 200 ++ bytes " " ++ bytes "OK" ++ bytes "\r\n"
        ++ bytes "Content-Type: " := by decide
  have e2 : bytes "\r\nContent-Length: 0\r\nConnection: close\r\n\r\n"
      = bytes "\r\n" ++ (bytes "Content-Length: " ++ fmtInt ([] : Str).length ++ bytes "\r\n")
        ++ bytes "Connection: close\r\n" ++ bytes "\r\n" ++ [] := by decide
  rw [hh, route_post_echo _ hm hp, e1, e2]
  simp only [echo, writeResponse, List.append_assoc]

/-- Witness of C12: `POST /echo` with the header `Host: x`, followed by bytes
that are not read. -/
theorem handleConn_without_content_length_witness :
    handleConn id maxAlloc (bytes "POST /echo HTTP/1.1\r\nHost: x\r\n\r\nignored")
      = bytes ("HTTP/1.1 200 OK\r\nContent-Type: application/octet-stream\r\n"
          ++ "Content-Length: 0\r\nConnection: close\r\n\r\n") :=
  ((handleConn_without_content_length id maxAlloc (bytes "POST /echo HTTP/1.1\r") (bytes "POST")
      (bytes "/echo") (bytes "HTTP/1.1") [bytes "Host: x\r"] (bytes "\r") (bytes "ignored")
      (by decide) (by decide) (by decide) (by decide) (by decide) (by decide)).2.1).trans
    (by decide)

/-! ## Routing -/

theorem route_get_root (req : Request) (hm : req.Method = bytes "GET")
    (hp : req.Path = bytes "/") : route req = home req := by
  simp [route, hm, hp]

theorem route_get_hello (req : Request) (hm : req.Method = bytes "GET")
    (hp : req.Path = bytes "/hello") : route req = hello req := by
  have h1 : ¬ bytes "/hello" = bytes "/" := by decide
  simp [route, hm, hp, h1]

theorem route_not_found (req : Request)
    (h1 : ¬ (req.Method = bytes "GET" ∧ req.Path = bytes "/"))
    (h2 : ¬ (req.Method = bytes "GET" ∧ req.Path = bytes "/hello"))
    (h3 : ¬ (req.Method = bytes "POST" ∧ req.Path = bytes "/echo")) :
    route req = writeSimpleResponse 404 (bytes "Not Found") (bytes "Route not found") := by
  simp only [route, h1, h2, h3, if_false]

set_option maxRecDepth 100000 in
theorem html_heading : ∃ before after, html = before ++ bytes "<h1>It works 🎉</h1>" ++ after :=
  ⟨bytes ("<!doctype html>\n<html>\n"
      ++ "<head><meta charset=\"utf-8\"><title>Home</title></head>\n<body>\n"),
    bytes ("\n<p>You built HTTP over TCP in Go.</p>\n"
      ++ "<p>Try <a href=\"/hello\">/hello</a> or POST to <code>/echo</code>.</p>\n"
      ++ "</body></html>"), by rfl⟩

/-- C13: a request that was parsed is routed by equality of strings on its
method and path: `GET /` gets the home response (200, `text/html;
charset=utf-8`, the document `html`, which holds `<h1>It works 🎉</h1>`),
`GET /hello` the hello response, `POST /echo` the echo response, and every
other pair the 404 response with the body `Route not found\n`. -/
theorem handleConn_route (ct : Nat → Nat) (allocLimit : Nat)
    (conn startLine r1 method path version : Str) (headers : Headers) (r2 body : Str)
    (hstart : readLine conn = .ok (startLine, r1)) (hne : startLine ≠ [])
    (hparse : parseStartLine startLine = .ok (method, path, version))
    (hheaders : readHeaders ct r1 = .ok (headers, r2))
    (hbody : readBody allocLimit headers r2 = .ok body) :
    (method = bytes "GET" ∧ path = bytes "/" →
        handleConn ct allocLimit conn
          = writeResponse 200 (bytes "OK") (bytes "text/html; charset=utf-8") html)
    ∧ (∃ before after, html = before ++ bytes "<h1>It works 🎉</h1>" ++ after)
    ∧ (method = bytes "GET" ∧ path = bytes "/hello" →
        handleConn ct allocLimit conn
          = writeResponse 200 (bytes "OK") (bytes "text/plain; charset=utf-8")
              (bytes "Hello from raw TCP HTTP!\n"))
    ∧ (method = bytes "POST" ∧ path = bytes "/echo" →
        handleConn ct allocLimit conn
          = echo { Method := method, Path := path, Version := version,
                   Headers := headers, Body := body })
    ∧ (¬ (method = bytes "GET" ∧ path = bytes "/")
        → ¬ (method = bytes "GET" ∧ path = bytes "/hello")
        → ¬ (method = bytes "POST" ∧ path = bytes "/echo") →
        handleConn ct allocLimit conn
          = writeResponse 404 (bytes "Not Found") (bytes "text/plain; charset=utf-8")
              (bytes "Route not found\n")) := by
  have hh := handleConn_body_ok ct allocLimit conn startLine r1 method path version headers r2 body
    hstart hne hparse hheaders hbody
  refine ⟨fun h => ?_, ?_, fun h => ?_, fun h => ?_, fun h1 h2 h3 => ?_⟩
  · rw [hh, route_get_root _ h.1 h.2]; rfl
  · exact html_heading
  · rw [hh, route_get_hello _ h.1 h.2]; rfl
  · rw [hh, route_post_echo _ h.1 h.2]
  · rw [hh, route_not_found _ h1 h2 h3]
    have e : bytes "Route not found" ++ bytes "\n" = bytes "Route not found\n" := by decide
    rw [writeSimpleResponse, e]

/-- Witness of C13: `GET /missing`, `get /` and `GET /hello/` are answered
with the 404 response, `GET /` with the home response. -/
theorem handleConn_route_witness :
    handleConn id maxAlloc (bytes "GET /missing HTTP/1.1\r\n\r\n")
        = writeResponse 404 (bytes "Not Found") (bytes "text/plain; charset=utf-8")
            (bytes "Route not found\n")
    ∧ handleConn id maxAlloc (bytes "get / HTTP/1.1\r\n\r\n")
        = writeResponse 404 (bytes "Not Found") (bytes "text/plain; charset=utf-8")
            (bytes "Route not found\n")
    ∧ handleConn id maxAlloc (bytes "GET /hello/ HTTP/1.1\r\n\r\n")
        = writeResponse 404 (bytes "Not Found") (bytes "text/plain; charset=utf-8")
            (bytes "Route not found\n")
    ∧ handleConn id maxAlloc (bytes "GET / HTTP/1.1\r\n\r\n")
        = writeResponse 200 (bytes "OK") (bytes "text/html; charset=utf-8") html :=
  ⟨(handleConn_route id maxAlloc (bytes "GET /missing HTTP/1.1\r\n\r\n") (bytes "GET /missing HTTP/1.1")
      (bytes "\r\n") (bytes "GET") (bytes "/missing") (bytes "HTTP/1.1") [] [] []
      (by decide) (by decide) (by decide) (by decide) (by decide)).2.2.2.2
      (by decide) (by decide) (by decide),
   by decide, by decide, by rfl⟩

/-! ## The echo handler -/

/-- C14, as stated, fails: the stream `POST /echo` with the header line
`Content-Type:` gives a header map that holds `content-type` with the empty
value, and the response carries `application/octet-stream`, not that value. -/
theorem echo_empty_content_type :
    readHeaders id (bytes "Content-Type:\r\n\r\n") = .ok ([(bytes "content-type", [])], [])
    ∧ handleConn id maxAlloc (bytes "POST /echo HTTP/1.1\r\nContent-Type:\r\n\r\n")
        = writeResponse 200 (bytes "OK") (bytes "application/octet-stream") []
    ∧ ¬ (∀ (req : Request) (v : Str), req.Headers.get (bytes "content-type") = some v →
          echo req = writeResponse 200 (bytes "OK") v req.Body) :=
  ⟨by decide, by decide, fun h =>
    absurd (h { Method := bytes "POST", Path := bytes "/echo", Version := bytes "HTTP/1.1",
                Headers := [(bytes "content-type", [])], Body := [] } [] (by decide))
      (by decide)⟩

/-- C14, amended: the echo handler writes status 200 and the body of the
request unchanged, with the content type equal to the value of the request's
`content-type` header when the map holds it with a non-empty value, and
`application/octet-stream` when the map does not hold it or holds the empty
value. -/
theorem echo_content_type (req : Request) :
    (∀ v, req.Headers.get (bytes "content-type") = some v → v ≠ [] →
        echo req = writeResponse 200 (bytes "OK") v req.Body)
    ∧ (req.Headers.get (bytes "content-type") = none
        ∨ req.Headers.get (bytes "content-type") = some [] →
        echo req = writeResponse 200 (bytes "OK") (bytes "application/octet-stream") req.Body) := by
  constructor
  · intro v hv hne
    simp [echo, hv, hne]
  · rintro (h | h) <;> simp [echo, h]

/-- Witness of C14: `POST /echo` with `Content-Type: text/plain` and the body
`hi` is answered with 200, `text/plain` and `hi`. -/
theorem echo_content_type_witness :
    handleConn id maxAlloc
        (bytes "POST /echo HTTP/1.1\r\nContent-Type: text/plain\r\nContent-Length: 2\r\n\r\nhi")
      = writeResponse 200 (bytes "OK") (bytes "text/plain") (bytes "hi")
    ∧ echo { Method := bytes "POST", Path := bytes "/echo", Version := bytes "HTTP/1.1",
             Headers := [(bytes "content-length", bytes "2"),
                         (bytes "content-type", bytes "text/plain")],
             Body := bytes "hi" }
      = writeResponse 200 (bytes "OK") (bytes "text/plain") (bytes "hi") :=
  ⟨by decide,
   (echo_content_type { Method := bytes "POST", Path := bytes "/echo",
                        Version := bytes "HTTP/1.1",
                        Headers := [(bytes "content-length", bytes "2"),
                                    (bytes "content-type", bytes "text/plain")],
                        Body := bytes "hi" }).1 (bytes "text/plain") (by decide) (by decide)⟩

/-! ## The response writer -/

/-- C15: the bytes `writeResponse` writes are the status line
`HTTP/1.1 <code> <text>`, the `Content-Type`, `Content-Length` and
`Connection: close` lines, each ended by `\r\n`, an empty line, and the body,
in that order; `<code>` is the decimal numeral of the status code and the
length is the decimal numeral of the number of bytes of the body (4 for the
one character `🎉`). -/
theorem writeResponse_format (status : Nat) (statusText contentType body : Str) :
    writeResponse status statusText contentType body
      = bytes "HTTP/1.1 " ++ fmtInt status ++ bytes " " ++ statusText ++ bytes "\r\n"
          ++ bytes "Content-Type: " ++ contentType ++ bytes "\r\n"
          ++ bytes "Content-Length: " ++ fmtInt body.length ++ bytes "\r\n"
          ++ bytes "Connection: close\r\n"
          ++ bytes "\r\n"
          ++ body
    ∧ isDecimal (fmtInt status) status = true
    ∧ isDecimal (fmtInt body.length) body.length = true
    ∧ writeResponse 200 (bytes "OK") (bytes "text/plain") (bytes "🎉")
        = bytes ("HTTP/1.1 200 OK\r\nContent-Type: text/plain\r\nContent-Length: 4\r\n"
            ++ "Connection: close\r\n\r\n🎉") := by
  refine ⟨?_, fmtInt_isDecimal _, fmtInt_isDecimal _, by decide⟩
  simp only [writeResponse, List.append_assoc]

/-- C16: when the status text and the content type hold no `\n`, the output
of `writeResponse` cut at its first blank line has the body as the text after
it, whatever the body holds, and its header part has the four lines of the
response, among them `Content-Length: L` with `L` the decimal numeral of the
length of the body. -/
theorem writeResponse_roundtrip (status : Nat) (statusText contentType body : Str)
    (ht : 0x0A ∉ statusText) (hc : 0x0A ∉ contentType) :
    ∃ hdr, splitBlankLine (writeResponse status statusText contentType body) = some (hdr, body)
      ∧ splitCRLF hdr = [bytes "HTTP/1.1 " ++ fmtInt status ++ bytes " " ++ statusText,
          bytes "Content-Type: " ++ contentType,
          bytes "Content-Length: " ++ fmtInt body.length,
          bytes "Connection: close"]
      ∧ bytes "Content-Length: " ++ fmtInt body.length ∈ splitCRLF hdr
      ∧ isDecimal (fmtInt body.length) body.length = true := by
  obtain ⟨hdr, h1, h2⟩ := writeResponse_split status statusText contentType body ht hc
  exact ⟨hdr, h1, h2, by rw [h2]; simp, fmtInt_isDecimal _⟩

/-- Witness of C16 on a body that itself holds a blank line. -/
theorem writeResponse_roundtrip_witness :
    ∃ hdr, splitBlankLine (writeResponse 200 (bytes "OK") (bytes "text/plain") (bytes "a\r\n\r\nb"))
          = some (hdr, bytes "a\r\n\r\nb")
      ∧ splitCRLF hdr = [bytes "HTTP/1.1 " ++ fmtInt 200 ++ bytes " " ++ bytes "OK",
          bytes "Content-Type: " ++ bytes "text/plain",
          bytes "Content-Length: " ++ fmtInt (bytes "a\r\n\r\nb").length,
          bytes "Connection: close"]
      ∧ bytes "Content-Length: " ++ fmtInt (bytes "a\r\n\r\nb").length ∈ splitCRLF hdr
      ∧ isDecimal (fmtInt (bytes "a\r\n\r\nb").length) (bytes "a\r\n\r\nb").length = true :=
  writeResponse_roundtrip 200 (bytes "OK") (bytes "text/plain") (bytes "a\r\n\r\nb")
    (by decide) (by decide)

/-! ## Line breaks in the header map -/

theorem splitDelim_not_mem (d : Nat) : ∀ (r l rest : Str),
    splitDelim d r = some (l, rest) → ∃ raw, l = raw ++ [d] ∧ d ∉ raw
  | [], l, rest, h => by simp [splitDelim] at h
  | b :: t, l, rest, h => by
    unfold splitDelim at h
    split at h
    · rename_i hb
      simp at h
      exact ⟨[], by simp [← h.1, hb], by simp⟩
    · rename_i hb
      cases hs : splitDelim d t with
      | none => simp [hs] at h
      | some v =>
        obtain ⟨l1, rest1⟩ := v
        simp [hs] at h
        obtain ⟨raw, e, hraw⟩ := splitDelim_not_mem d t l1 rest1 hs
        refine ⟨b :: raw, by simp [← h.1, e], ?_⟩
        intro hm
        rcases List.mem_cons.1 hm with e1 | e1
        · exact hb e1.symm
        · exact hraw e1

theorem TrimRight_subset (s cutset : Str) (b : Nat) (h : b ∈ TrimRight s cutset) : b ∈ s := by
  unfold TrimRight at h
  rw [List.mem_reverse] at h
  exact List.mem_reverse.1 ((List.dropWhile_sublist _).subset h)

theorem readLine_line_no_newline (r line rest : Str) (h : readLine r = .ok (line, rest)) :
    0x0A ∉ line := by
  unfold readLine ReadString at h
  cases hs : splitDelim 0x0A r with
  | none => simp [hs] at h
  | some v =>
    obtain ⟨l1, rest1⟩ := v
    simp [hs] at h
    obtain ⟨raw, e, hraw⟩ := splitDelim_not_mem _ _ _ _ hs
    rw [← h.1, e, TrimRight_append_newline]
    exact fun hm => hraw (TrimRight_subset _ _ _ hm)

theorem trimLeftSpace_subset : ∀ (s : Str) (k : Nat) (b : Nat),
    b ∈ trimLeftSpace s k → b ∈ s
  | [], k, b, h => by simp [trimLeftSpace] at h
  | c :: t, 0, b, h => by
    rw [trimLeftSpace] at h
    split at h
    · exact List.mem_cons_of_mem _ (trimLeftSpace_subset t _ b h)
    · exact h
  | c :: t, k + 1, b, h => by
    rw [trimLeftSpace] at h
    exact List.mem_cons_of_mem _ (trimLeftSpace_subset t k b h)

theorem TrimSpace_subset (s : Str) (b : Nat) (h : b ∈ TrimSpace s) : b ∈ s := by
  unfold TrimSpace at h
  rw [List.mem_reverse] at h
  obtain ⟨d, hd⟩ := trimRightSpaceRev_suffix (trimLeftSpace s 0).reverse 0
  have h2 : b ∈ (trimLeftSpace s 0).reverse := by
    rw [hd]
    exact List.mem_append_right _ h
  exact trimLeftSpace_subset s 0 b (List.mem_reverse.1 h2)

theorem headerValue_no_newline (line : Str) (h : 0x0A ∉ line) : 0x0A ∉ headerValue line := by
  intro hm
  have h1 := TrimSpace_subset _ _ hm
  unfold afterColon at h1
  exact h ((List.dropWhile_sublist _).subset ((List.drop_sublist _ _).subset h1))

theorem first_some (b sz lo hi : Nat) (h : first b = some (sz, lo, hi)) :
    (sz = 2 ∧ 0xC2 ≤ b ∧ b ≤ 0xDF ∧ lo = 0x80)
    ∨ (sz = 3 ∧ 0xE0 ≤ b ∧ b ≤ 0xEF ∧ (b = 0xE0 ∧ lo = 0xA0 ∨ 0xE0 < b ∧ lo = 0x80))
    ∨ (sz = 4 ∧ 0xF0 ≤ b ∧ b ≤ 0xF4 ∧ (b = 0xF0 ∧ lo = 0x90 ∨ 0xF0 < b ∧ lo = 0x80)) := by
  unfold first at h
  repeat (first | split at h | simp at h | omega)

theorem decodeRune_ge (b : Nat) (t : Str) (hb : ¬ b < 0x80) : 0x80 ≤ (decodeRune b t).1 := by
  unfold decodeRune
  simp only [hb, if_false]
  cases hf : first b with
  | none => simp [RuneError]
  | some v =>
    obtain ⟨sz, lo, hi⟩ := v
    have hs := first_some b sz lo hi hf
    have hr := first_range b sz lo hi hf
    match t with
    | [] => simp [RuneError]
    | s1 :: t1 =>
      by_cases h1 : s1 < lo ∨ hi < s1
      · simp [h1, RuneError]
      · by_cases h2 : sz ≤ 2
        · simp only [h1, h2, if_false, if_true]
          omega
        · match t1 with
          | [] => simp [h1, h2, RuneError]
          | s2 :: t2 =>
            by_cases h3 : isCont s2 = true
            · by_cases h4 : sz ≤ 3
              · simp only [h1, h2, h3, h4, Bool.not_true, if_false, if_true]
                simp only [Bool.false_eq_true, if_false]
                omega
              · match t2 with
                | [] => simp [h1, h2, h3, h4, RuneError]
                | s3 :: t3 =>
                  by_cases h5 : isCont s3 = true
                  · simp only [h1, h2, h3, h4, h5, Bool.not_true, if_false]
                    simp only [Bool.false_eq_true, if_false]
                    omega
                  · simp [h1, h2, h3, h4, h5, RuneError]
            · simp [h1, h2, h3, RuneError]

theorem decodeRune_ascii (b : Nat) (t : Str) (h : (decodeRune b t).1 < 0x80) :
    (decodeRune b t).1 = b := by
  by_cases hb : b < 0x80
  · simp [decodeRune, hb]
  · have := decodeRune_ge b t hb
    omega

theorem runeSpans_ascii_mem : ∀ (s : Str) (k : Nat) (p : Nat × Str),
    p ∈ runeSpans s k → p.1 < 0x80 → p.1 ∈ s
  | [], k, p, h, _ => by simp [runeSpans] at h
  | b :: t, 0, p, h, hp => by
    rw [runeSpans_cons_zero] at h
    rcases List.mem_cons.1 h with e | h
    · subst e
      rw [decodeRune_ascii b t hp]
      exact List.mem_cons_self _ _
    · exact List.mem_cons_of_mem _ (runeSpans_ascii_mem t _ p h hp)
  | b :: t, k + 1, p, h, hp => by
    rw [runeSpans_cons_succ] at h
    exact List.mem_cons_of_mem _ (runeSpans_ascii_mem t k p h hp)

theorem encodeRune_newline (x : Nat) (h : 0x0A ∈ encodeRune x) : x = 0x0A := by
  unfold encodeRune at h
  split at h
  · simp at h; exact h.symm
  · split at h
    · simp at h; omega
    · split at h
      · simp at h
      · split at h
        · simp at h; omega
        · simp at h; omega

theorem ToLower_no_newline (ct : Nat → Nat) (hnl : ∀ r, 0x7F < r → ct r ≠ 0x0A)
    (s : Str) (h : 0x0A ∉ s) : 0x0A ∉ ToLower ct s := by
  intro hm
  simp only [ToLower, List.mem_flatten, List.mem_map] at hm
  obtain ⟨l, ⟨p, hp, rfl⟩, hl⟩ := hm
  have hx := encodeRune_newline _ hl
  unfold unicodeToLower at hx
  by_cases hr : p.1 ≤ 0x7F
  · simp only [hr, if_true] at hx
    have h10 : p.1 = 0x0A := by
      split at hx <;> omega
    have := runeSpans_ascii_mem s 0 p hp (by omega)
    rw [h10] at this
    exact h this
  · simp only [hr, if_false] at hx
    exact hnl p.1 (by omega) hx

theorem headerName_no_newline (ct : Nat → Nat) (hnl : ∀ r, 0x7F < r → ct r ≠ 0x0A)
    (line : Str) (h : 0x0A ∉ line) : 0x0A ∉ headerName ct line := by
  apply ToLower_no_newline ct hnl
  intro hm
  have h1 := TrimSpace_subset _ _ hm
  unfold beforeColon at h1
  exact h ((List.takeWhile_sublist _).subset h1)

theorem readHeadersLoop_entries (ct : Nat → Nat) (P : Str × Str → Prop)
    (hP : ∀ line, 0x0A ∉ line → P (headerName ct line, headerValue line)) :
    ∀ (fuel : Nat) (m : Headers) (r : Str) (res : Headers) (rest : Str),
      (∀ kv ∈ m, P kv) → readHeadersLoop ct fuel m r = .ok (res, rest) → ∀ kv ∈ res, P kv
  | 0, m, r, res, rest, _, h => by simp [readHeadersLoop] at h
  | fuel + 1, m, r, res, rest, hm, h => by
    rw [readHeadersLoop_succ] at h
    cases hl : readLine r with
    | error e => simp [hl] at h
    | ok v =>
      obtain ⟨line, rest1⟩ := v
      simp only [hl] at h
      by_cases hline : line = []
      · simp only [hline, if_true, Except.ok.injEq, Prod.mk.injEq] at h
        rw [← h.1]
        exact hm
      · simp only [hline, if_false] at h
        refine readHeadersLoop_entries ct P hP fuel _ rest1 res rest ?_ h
        intro kv hkv
        unfold storeLine at hkv
        split at hkv
        · simp only [Headers.set, List.mem_cons, List.mem_filter] at hkv
          rcases hkv with rfl | hkv
          · exact hP line (readLine_line_no_newline r line rest1 hl)
          · exact hm kv hkv.1
        · exact hm kv hkv

theorem readHeaders_values_no_newline (ct : Nat → Nat) (r : Str) (m : Headers) (rest : Str)
    (h : readHeaders ct r = .ok (m, rest)) : ∀ kv ∈ m, 0x0A ∉ kv.2 :=
  readHeadersLoop_entries ct (fun kv => 0x0A ∉ kv.2) (fun line hl => headerValue_no_newline line hl)
    r.length [] r m rest (by simp) h

theorem readHeaders_keys_no_newline (ct : Nat → Nat) (hnl : ∀ r, 0x7F < r → ct r ≠ 0x0A)
    (r : Str) (m : Headers) (rest : Str)
    (h : readHeaders ct r = .ok (m, rest)) : ∀ kv ∈ m, 0x0A ∉ kv.1 :=
  readHeadersLoop_entries ct (fun kv => 0x0A ∉ kv.1)
    (fun line hl => headerName_no_newline ct hnl line hl) r.length [] r m rest (by simp) h

theorem get_mem (k v : Str) : ∀ (m : Headers), m.get k = some v → (k, v) ∈ m
  | [], h => by simp [Headers.get] at h
  | (k1, v1) :: m, h => by
    unfold Headers.get at h
    split at h
    · rename_i hk
      simp at h
      simp [← hk, h]
    · exact List.mem_cons_of_mem _ (get_mem k v m h)

theorem echo_content_type_no_newline (req : Request) (h : ∀ kv ∈ req.Headers, 0x0A ∉ kv.2) :
    ∃ contentType, 0x0A ∉ contentType
      ∧ echo req = writeResponse 200 (bytes "OK") contentType req.Body := by
  refine ⟨_, ?_, rfl⟩
  split
  · decide
  · cases hg : req.Headers.get (bytes "content-type") with
    | none => simp
    | some v => exact h _ (get_mem _ _ _ hg)

/-! ## One response per connection -/

theorem writeResponse_complete (status : Nat) (statusText contentType body : Str)
    (hs : status = 200 ∨ status = 400 ∨ status = 404)
    (ht : 0x0A ∉ statusText) (hc : 0x0A ∉ contentType) :
    isCompleteResponse (writeResponse status statusText contentType body) := by
  obtain ⟨hdr, h1, h2⟩ := writeResponse_split status statusText contentType body ht hc
  exact ⟨status, statusText, contentType, body, hdr, fmtInt body.length, hs, rfl, h1,
    by rw [h2]; simp, fmtInt_isDecimal _⟩

theorem writeSimpleResponse_complete (msg : Str) :
    isCompleteResponse (writeSimpleResponse 400 (bytes "Bad Request") msg) :=
  writeResponse_complete 400 _ _ _ (by simp) (by decide) (by decide)

theorem route_complete (req : Request) (h : ∀ kv ∈ req.Headers, 0x0A ∉ kv.2) :
    isCompleteResponse (route req) := by
  unfold route
  split_ifs
  · exact writeResponse_complete 200 _ _ _ (by simp) (by decide) (by decide)
  · exact writeResponse_complete 200 _ _ _ (by simp) (by decide) (by decide)
  · obtain ⟨contentType, hc, e⟩ := echo_content_type_no_newline req h
    rw [e]
    exact writeResponse_complete 200 _ _ _ (by simp) (by decide) hc
  · exact writeResponse_complete 404 _ _ _ (by simp) (by decide) (by decide)

theorem handleConn_read_error (ct : Nat → Nat) (allocLimit : Nat) (conn : Str) (e : Err)
    (hstart : readLine conn = .error e) : handleConn ct allocLimit conn = [] := by
  simp [handleConn, hstart]

theorem handleConn_empty_line (ct : Nat → Nat) (allocLimit : Nat) (conn r1 : Str)
    (hstart : readLine conn = .ok ([], r1)) : handleConn ct allocLimit conn = [] := by
  simp [handleConn, hstart]

theorem handleConn_parse_error (ct : Nat → Nat) (allocLimit : Nat) (conn startLine r1 : Str) (e : Err)
    (hstart : readLine conn = .ok (startLine, r1)) (hne : startLine ≠ [])
    (hparse : parseStartLine startLine = .error e) :
    handleConn ct allocLimit conn
      = writeSimpleResponse 400 (bytes "Bad Request") (bytes "Invalid start line") := by
  simp [handleConn, hstart, hne, hparse]

theorem handleConn_headers_error (ct : Nat → Nat) (allocLimit : Nat)
    (conn startLine r1 method path version : Str) (e : Err)
    (hstart : readLine conn = .ok (startLine, r1)) (hne : startLine ≠ [])
    (hparse : parseStartLine startLine = .ok (method, path, version))
    (hheaders : readHeaders ct r1 = .error e) :
    handleConn ct allocLimit conn
      = writeSimpleResponse 400 (bytes "Bad Request") (bytes "Invalid headers") := by
  simp [handleConn, hstart, hne, hparse, hheaders]

/-- C17: for every input stream, the bytes `handleConn` writes are either none
or one complete response: the output of `writeResponse` for a status 200, 400
or 404, in which the body follows the first blank line and the
`Content-Length` line gives the number of bytes of that body. -/
theorem handleConn_one_response (ct : Nat → Nat) (allocLimit : Nat) (conn : Str) :
    handleConn ct allocLimit conn = [] ∨ isCompleteResponse (handleConn ct allocLimit conn) := by
  cases hl : readLine conn with
  | error e => exact .inl (handleConn_read_error ct allocLimit conn e hl)
  | ok v =>
    obtain ⟨startLine, r1⟩ := v
    by_cases hne : startLine = []
    · subst hne
      exact .inl (handleConn_empty_line ct allocLimit conn r1 hl)
    · cases hp : parseStartLine startLine with
      | error e =>
        rw [handleConn_parse_error ct allocLimit conn startLine r1 e hl hne hp]
        exact .inr (writeSimpleResponse_complete _)
      | ok v =>
        obtain ⟨method, path, version⟩ := v
        cases hh : readHeaders ct r1 with
        | error e =>
          rw [handleConn_headers_error ct allocLimit conn startLine r1 method path version e
            hl hne hp hh]
          exact .inr (writeSimpleResponse_complete _)
        | ok v =>
          obtain ⟨headers, r2⟩ := v
          cases hb : readBody allocLimit headers r2 with
          | panic =>
            exact .inl (handleConn_body_panicked ct allocLimit conn startLine r1 method path
              version headers r2 hl hne hp hh hb)
          | badRequest msg =>
            rw [handleConn_body_error ct allocLimit conn startLine r1 method path version headers
              r2 msg hl hne hp hh hb]
            exact .inr (writeSimpleResponse_complete _)
          | ok body =>
            rw [handleConn_body_ok ct allocLimit conn startLine r1 method path version headers
              r2 body hl hne hp hh hb]
            exact .inr (route_complete _ (readHeaders_values_no_newline ct r1 headers r2 hh))

/-! ## A malformed start line -/

theorem parseStartLine_error (line : Str) (h : (Fields line).length ≠ 3) :
    parseStartLine line = .error Err.invalidStartLine := by
  unfold parseStartLine
  match hF : Fields line with
  | [] => rfl
  | [a] => rfl
  | [a, b] => rfl
  | [a, b, c] => rw [hF] at h; simp at h
  | a :: b :: c :: d :: l => rfl

/-- C18, as stated, fails: on the stream `\r\n` the first line is empty, so it
has no field, and `handleConn` writes nothing. -/
theorem handleConn_empty_start_line :
    readLine (bytes "\r\n") = .ok ([], [])
    ∧ (whitespaceFields []).length = 0
    ∧ handleConn id maxAlloc (bytes "\r\n") = []
    ∧ handleConn id maxAlloc (bytes "\r\n")
        ≠ writeResponse 400 (bytes "Bad Request") (bytes "text/plain; charset=utf-8")
            (bytes "Invalid start line\n") := by
  decide

/-- C18, amended: when the first line of the stream is not empty and does not
split into exactly three fields, `handleConn` writes the 400 response with
the content type `text/plain; charset=utf-8` and the body
`Invalid start line\n`, whatever follows the line. -/
theorem handleConn_malformed_start_line (ct : Nat → Nat) (allocLimit : Nat) (raw rest : Str)
    (hraw : 0x0A ∉ raw) (hne : lineOf raw ≠ [])
    (hf : (whitespaceFields (lineOf raw)).length ≠ 3) :
    handleConn ct allocLimit (raw ++ 0x0A :: rest)
      = writeResponse 400 (bytes "Bad Request") (bytes "text/plain; charset=utf-8")
          (bytes "Invalid start line\n") := by
  have hp := parseStartLine_error (lineOf raw) (by rw [Fields_eq_whitespaceFields]; exact hf)
  have e : bytes "Invalid start line" ++ bytes "\n" = bytes "Invalid start line\n" := by decide
  simp [handleConn, readLine_raw raw rest hraw, hne, hp, writeSimpleResponse, e]

/-- Witness of C18: the first lines `GET /` (two fields), ` ` (none) and
`GET / HTTP/1.1 x` (four) are answered with the 400 response. -/
theorem handleConn_malformed_start_line_witness :
    handleConn id maxAlloc (bytes "GET /\r" ++ 0x0A :: bytes "Host: x\r\n\r\n")
        = writeResponse 400 (bytes "Bad Request") (bytes "text/plain; charset=utf-8")
            (bytes "Invalid start line\n")
    ∧ handleConn id maxAlloc (bytes " \r\n")
        = writeResponse 400 (bytes "Bad Request") (bytes "text/plain; charset=utf-8")
            (bytes "Invalid start line\n")
    ∧ handleConn id maxAlloc (bytes "GET / HTTP/1.1 x\r\n\r\n")
        = writeResponse 400 (bytes "Bad Request") (bytes "text/plain; charset=utf-8")
            (bytes "Invalid start line\n") :=
  ⟨handleConn_malformed_start_line id maxAlloc (bytes "GET /\r") (bytes "Host: x\r\n\r\n")
      (by decide) (by decide) (by decide),
   by decide, by decide⟩

/-! ## Header injection -/

/-- C19: when the lower-case table of package `unicode` maps no rune to `\n`,
no key and no value of a map that `readHeaders` returns holds the byte `\n`;
and the response to a `POST /echo` request, cut at its first blank line, has
the request body after it and a header part of exactly four lines: the status
line, `Content-Type` with the type taken from the request,
`Content-Length` and `Connection: close`. -/
theorem echo_no_header_injection (ct : Nat → Nat) (allocLimit : Nat) (hnl : ∀ r, 0x7F < r → ct r ≠ 0x0A)
    (conn startLine r1 version : Str) (headers : Headers) (r2 body : Str)
    (hstart : readLine conn = .ok (startLine, r1)) (hne : startLine ≠ [])
    (hparse : parseStartLine startLine = .ok (bytes "POST", bytes "/echo", version))
    (hheaders : readHeaders ct r1 = .ok (headers, r2))
    (hbody : readBody allocLimit headers r2 = .ok body) :
    (∀ r m rest, readHeaders ct r = .ok (m, rest) → ∀ kv ∈ m, 0x0A ∉ kv.1 ∧ 0x0A ∉ kv.2)
    ∧ ∃ contentType hdr,
        handleConn ct allocLimit conn = writeResponse 200 (bytes "OK") contentType body
        ∧ 0x0A ∉ contentType
        ∧ splitBlankLine (handleConn ct allocLimit conn) = some (hdr, body)
        ∧ splitCRLF hdr = [bytes "HTTP/1.1 200 OK",
            bytes "Content-Type: " ++ contentType,
            bytes "Content-Length: " ++ fmtInt body.length,
            bytes "Connection: close"] := by
  refine ⟨fun r m rest h kv hkv =>
    ⟨readHeaders_keys_no_newline ct hnl r m rest h kv hkv,
     readHeaders_values_no_newline ct r m rest h kv hkv⟩, ?_⟩
  have hh := handleConn_body_ok ct allocLimit conn startLine r1 _ _ version headers r2 body
    hstart hne hparse hheaders hbody
  rw [route_post_echo _ rfl rfl] at hh
  obtain ⟨contentType, hc, e⟩ := echo_content_type_no_newline
    { Method := bytes "POST", Path := bytes "/echo", Version := version,
      Headers := headers, Body := body }
    (readHeaders_values_no_newline ct r1 headers r2 hheaders)
  rw [e] at hh
  obtain ⟨hdr, h1, h2⟩ := writeResponse_split 200 (bytes "OK") contentType body (by decide) hc
  have e1 : bytes "HTTP/1.1 " ++ fmtInt 200 ++ bytes " " ++ bytes "OK" = bytes "HTTP/1.1 200 OK" := by
    decide
  rw [e1] at h2
  exact ⟨contentType, hdr, hh, hc, by rw [hh]; exact h1, h2⟩

/-- Witness of C19: a `Content-Type` value with a carriage return in it is
written back on one line. -/
theorem echo_no_header_injection_witness :
    (∀ r m rest, readHeaders sampleCaseTable r = .ok (m, rest) →
        ∀ kv ∈ m, 0x0A ∉ kv.1 ∧ 0x0A ∉ kv.2)
    ∧ ∃ contentType hdr,
        handleConn sampleCaseTable maxAlloc
            (bytes "POST /echo HTTP/1.1\r\nContent-Type: a\rX: b\r\nContent-Length: 1\r\n\r\nz")
          = writeResponse 200 (bytes "OK") contentType (bytes "z")
        ∧ 0x0A ∉ contentType
        ∧ splitBlankLine (handleConn sampleCaseTable maxAlloc
            (bytes "POST /echo HTTP/1.1\r\nContent-Type: a\rX: b\r\nContent-Length: 1\r\n\r\nz"))
          = some (hdr, bytes "z")
        ∧ splitCRLF hdr = [bytes "HTTP/1.1 200 OK",
            bytes "Content-Type: " ++ contentType,
            bytes "Content-Length: " ++ fmtInt (bytes "z").length,
            bytes "Connection: close"] :=
  echo_no_header_injection sampleCaseTable maxAlloc
    (fun r _ => by unfold sampleCaseTable; split_ifs <;> omega)
    (bytes "POST /echo HTTP/1.1\r\nContent-Type: a\rX: b\r\nContent-Length: 1\r\n\r\nz")
    (bytes "POST /echo HTTP/1.1")
    (bytes "Content-Type: a\rX: b\r\nContent-Length: 1\r\n\r\nz")
    (bytes "HTTP/1.1")
    [(bytes "content-length", bytes "1"), (bytes "content-type", bytes "a\rX: b")]
    (bytes "z") (bytes "z")
    (by decide) (by decide) (by decide) (by decide) (by decide)

/-! ## Bytes after the request -/

theorem splitDelim_append_right (d : Nat) (t : Str) : ∀ (r l rest : Str),
    splitDelim d r = some (l, rest) → splitDelim d (r ++ t) = some (l, rest ++ t)
  | [], l, rest, h => by simp [splitDelim] at h
  | b :: r, l, rest, h => by
    unfold splitDelim at h
    rw [List.cons_append, splitDelim]
    split at h
    · rename_i hb
      simp at h
      simp [hb, ← h.1, ← h.2]
    · rename_i hb
      cases hs : splitDelim d r with
      | none => simp [hs] at h
      | some v =>
        obtain ⟨l1, rest1⟩ := v
        simp [hs] at h
        simp [hb, splitDelim_append_right d t r l1 rest1 hs, h.1, h.2]

theorem readLine_append (r t line rest : Str) (h : readLine r = .ok (line, rest)) :
    readLine (r ++ t) = .ok (line, rest ++ t) := by
  unfold readLine ReadString at h ⊢
  cases hs : splitDelim 0x0A r with
  | none => simp [hs] at h
  | some v =>
    obtain ⟨l1, rest1⟩ := v
    simp [hs] at h
    simp [splitDelim_append_right 0x0A t r l1 rest1 hs, h.1, h.2]

theorem readHeadersLoop_append (ct : Nat → Nat) (t : Str) :
    ∀ (fuel : Nat) (m : Headers) (r : Str) (res : Headers) (rest : Str),
      readHeadersLoop ct fuel m r = .ok (res, rest) →
      ∀ fuel2, (r ++ t).length ≤ fuel2 →
        readHeadersLoop ct fuel2 m (r ++ t) = .ok (res, rest ++ t)
  | 0, m, r, res, rest, h, _, _ => by simp [readHeadersLoop] at h
  | fuel + 1, m, r, res, rest, h, fuel2, hf => by
    rw [readHeadersLoop_succ] at h
    cases hl : readLine r with
    | error e => simp [hl] at h
    | ok v =>
      obtain ⟨line, rest1⟩ := v
      simp only [hl] at h
      have hlen := readLine_length r line rest1 hl
      have hl2 := readLine_append r t line rest1 hl
      obtain ⟨f3, rfl⟩ : ∃ f3, fuel2 = f3 + 1 := by
        refine ⟨fuel2 - 1, ?_⟩
        simp only [List.length_append] at hf
        omega
      rw [readHeadersLoop_succ, hl2]
      by_cases hline : line = []
      · simp only [hline, if_true, Except.ok.injEq, Prod.mk.injEq] at h ⊢
        exact ⟨h.1, by rw [h.2]⟩
      · simp only [hline, if_false] at h ⊢
        refine readHeadersLoop_append ct t fuel _ rest1 res rest h f3 ?_
        simp only [List.length_append] at hf ⊢
        omega

theorem readHeaders_append (ct : Nat → Nat) (r t : Str) (m : Headers) (rest : Str)
    (h : readHeaders ct r = .ok (m, rest)) : readHeaders ct (r ++ t) = .ok (m, rest ++ t) :=
  readHeadersLoop_append ct t r.length [] r m rest h _ (Nat.le_refl _)

theorem readBody_append (allocLimit : Nat) (headers : Headers) (r t body : Str)
    (h : readBody allocLimit headers r = .ok body) :
    readBody allocLimit headers (r ++ t) = .ok body := by
  unfold readBody at h ⊢
  cases hg : headers.get (bytes "content-length") with
  | none => simpa [hg] using h
  | some clStr =>
    simp only [hg] at h ⊢
    cases ha : Atoi (TrimSpace clStr) with
    | error e => simp [ha] at h
    | ok n =>
      simp only [ha] at h ⊢
      by_cases hn : n < 0
      · simp [hn] at h
      · simp only [hn, if_false] at h ⊢
        by_cases hlim : allocLimit < n.toNat
        · simp [hlim] at h
        · simp only [hlim, if_false] at h ⊢
          unfold ReadFull at h ⊢
          by_cases hlen : n.toNat ≤ r.length
          · have hlen2 : n.toNat ≤ (r ++ t).length := by
              simp only [List.length_append]; omega
            simp only [hlen, hlen2, if_true, BodyResult.ok.injEq] at h ⊢
            rw [← h, List.take_append_of_le_length hlen]
          · simp only [hlen, if_false] at h
            by_cases hr : r = []
            · simp [hr] at h
            · simp [hr] at h

/-- C20: when `handleConn` writes a 200 or a 404 response on a stream, it
writes the same bytes on that stream followed by any further bytes. -/
theorem handleConn_append (ct : Nat → Nat) (allocLimit : Nat) (s t : Str)
    (h : ∃ statusText contentType body,
      handleConn ct allocLimit s = writeResponse 200 statusText contentType body
      ∨ handleConn ct allocLimit s = writeResponse 404 statusText contentType body) :
    handleConn ct allocLimit (s ++ t) = handleConn ct allocLimit s := by
  obtain ⟨statusText, contentType, body, h⟩ := h
  have hnil : handleConn ct allocLimit s ≠ [] := by
    rcases h with h | h <;> rw [h] <;> exact writeResponse_ne_nil _ _ _ _
  have h400 : ∀ msg,
      handleConn ct allocLimit s ≠ writeSimpleResponse 400 (bytes "Bad Request") msg := by
    intro msg e
    rw [e] at h
    rcases h with h | h
    · exact writeResponse_200_ne_400 _ _ _ _ _ _ h.symm
    · exact writeResponse_404_ne_400 _ _ _ _ _ _ h.symm
  cases hl : readLine s with
  | error e => exact absurd (handleConn_read_error ct allocLimit s e hl) hnil
  | ok v =>
    obtain ⟨startLine, r1⟩ := v
    by_cases hne : startLine = []
    · subst hne
      exact absurd (handleConn_empty_line ct allocLimit s r1 hl) hnil
    · cases hp : parseStartLine startLine with
      | error e =>
        exact absurd (handleConn_parse_error ct allocLimit s startLine r1 e hl hne hp) (h400 _)
      | ok v =>
        obtain ⟨method, path, version⟩ := v
        cases hh : readHeaders ct r1 with
        | error e =>
          exact absurd
            (handleConn_headers_error ct allocLimit s startLine r1 method path version e
              hl hne hp hh)
            (h400 _)
        | ok v =>
          obtain ⟨headers, r2⟩ := v
          cases hb : readBody allocLimit headers r2 with
          | panic =>
            exact absurd
              (handleConn_body_panicked ct allocLimit s startLine r1 method path version headers
                r2 hl hne hp hh hb) hnil
          | badRequest msg =>
            exact absurd
              (handleConn_body_error ct allocLimit s startLine r1 method path version headers
                r2 msg hl hne hp hh hb) (h400 _)
          | ok body1 =>
            rw [handleConn_body_ok ct allocLimit s startLine r1 method path version headers
                r2 body1 hl hne hp hh hb,
              handleConn_body_ok ct allocLimit (s ++ t) startLine (r1 ++ t) method path version
                headers (r2 ++ t) body1 (readLine_append s t _ _ hl) hne hp
                (readHeaders_append ct r1 t headers r2 hh)
                (readBody_append allocLimit headers r2 t body1 hb)]

/-- Witness of C20: the request `GET /hello` followed by further bytes. -/
theorem handleConn_append_witness :
    handleConn id maxAlloc
        (bytes "GET /hello HTTP/1.1\r\nHost: x\r\n\r\n" ++ bytes "GET / HTTP/1.1\r\n")
      = handleConn id maxAlloc (bytes "GET /hello HTTP/1.1\r\nHost: x\r\n\r\n") :=
  handleConn_append id maxAlloc (bytes "GET /hello HTTP/1.1\r\nHost: x\r\n\r\n")
    (bytes "GET / HTTP/1.1\r\n")
    ⟨bytes "OK", bytes "text/plain; charset=utf-8", bytes "Hello from raw TCP HTTP!\n",
      .inl (by decide)⟩

end HttpBuildgo
